import Mathlib

/-!
# Verification of the Elemental-Renderer render-graph and shader-graph core

Shallow embedding of `src/Shaders/RenderGraph.cpp`, `src/Shaders/ShaderGraph.cpp`,
`src/Shaders/ShaderNode.cpp` and `src/Shaders/CustomNodeSDK.cpp`.

Modelling conventions:
* `std::vector` is modelled as `List` (push_back = append at the right).
* `std::set<std::string>` (pass resource sets) is modelled as a `List String`
  kept sorted and duplicate-free by `strSetInsert` (mirrors the ordered set's
  iteration order).
* `std::unordered_map` is modelled as a function with an update combinator
  where the map is only ever accessed per key (never iterated), and as an
  association list where entries matter; `operator[]` on a missing key yields
  the default value, as in C++.
* Node/pass objects held by `shared_ptr` are identified by their unique id
  (nodes: the process-wide monotonic counter; passes: the unique name), and
  shared mutable state is modelled by updating the owning graph's store.
* The depth-first `topologicalSortUtil` recursion is given a fuel argument of
  `passes.length + 1`.  Every name on a recursion path is a distinct pass name
  (the temp set grows along the path and all dependency entries are pass
  names), so the C++ recursion depth is bounded by the number of passes and
  this fuel is never exhausted on states built by the public interface.
* C++ `int` pin indices are modelled as `Nat`; the `< 0` rejection in
  `addConnection` is outside the model and no claim exercises it.
-/

namespace ElementalRenderer

/-- Insert into a sorted duplicate-free list of strings: the model of
`std::set<std::string>::insert`. -/
def strSetInsert : List String → String → List String
  | [], x => [x]
  | y :: t, x =>
    if x < y then x :: y :: t
    else if x = y then y :: t
    else y :: strSetInsert t x

/-- `RenderPass` from `RenderGraph.h`: a named unit of work with declared
resource reads/writes.  The execution callback is opaque; executing a pass is
observed as its name, so `execute` below returns the list of names whose
callbacks were invoked, in invocation order. -/
structure RenderPass where
  name : String
  readResources : List String
  writeResources : List String
  deriving DecidableEq

/-- `RenderPass::addReadResource` (`m_readResources.insert`). -/
def RenderPass.addReadResource (p : RenderPass) (r : String) : RenderPass :=
  { p with readResources := strSetInsert p.readResources r }

/-- `RenderPass::addWriteResource` (`m_writeResources.insert`). -/
def RenderPass.addWriteResource (p : RenderPass) (r : String) : RenderPass :=
  { p with writeResources := strSetInsert p.writeResources r }

/-- `RenderGraph` state: ordered pass list, name-indexed lookup table,
the derived dependency map (`unordered_map<string, vector<string>>`,
accessed only per key, hence a function), and the cached sorted order. -/
structure RenderGraph where
  name : String
  passes : List RenderPass
  passMap : List (String × RenderPass)
  dependencies : String → List String
  sortedPasses : List RenderPass

/-- A fresh graph: `RenderGraph::RenderGraph(name)`. -/
def RenderGraph.mk' (name : String) : RenderGraph :=
  ⟨name, [], [], fun _ => [], []⟩

/-- Map update for the function-valued maps (`m[k] = v`). -/
def fnSet {α : Type} (m : String → α) (k : String) (v : α) : String → α :=
  fun x => if x = k then v else m x

/-- `m[k].push_back v` on a `String → List` map. -/
def fnPush (m : String → List String) (k v : String) : String → List String :=
  fnSet m k (m k ++ [v])

/-- `RenderGraph::addPass`: fails when a pass with the same name is already in
the lookup table, otherwise appends to both containers. -/
def RenderGraph.addPass (g : RenderGraph) (p : RenderPass) : Bool × RenderGraph :=
  if (g.passMap.find? (fun e => e.1 = p.name)).isSome then (false, g)
  else (true, { g with passes := g.passes ++ [p],
                       passMap := g.passMap ++ [(p.name, p)] })

/-- `RenderGraph::removePass`: erases the map entry and the (pointer-equal)
vector entry; does not touch `dependencies` or `sortedPasses`. -/
def RenderGraph.removePass (g : RenderGraph) (passName : String) :
    Bool × RenderGraph :=
  match g.passMap.find? (fun e => e.1 = passName) with
  | none => (false, g)
  | some e =>
      (true, { g with passMap := g.passMap.eraseP (fun x => x.1 = passName),
                      passes := g.passes.erase e.2 })

/-- First loop of `buildDependencyGraph` for one pass: read-after-write then
write-after-write edges against the running `lastWriter` map, which is updated
per written resource after its check. -/
def loop1Pass (st : (String → List String) × (String → Option String))
    (p : RenderPass) : (String → List String) × (String → Option String) :=
  let d := p.readResources.foldl
    (fun d r => match st.2 r with
      | some w => fnPush d p.name w
      | none => d) st.1
  p.writeResources.foldl
    (fun st' r =>
      let d' := match st'.2 r with
        | some w => fnPush st'.1 p.name w
        | none => st'.1
      (d', fnSet st'.2 r (some p.name)))
    (d, st.2)

/-- Second loop, first half: collect every reader of every resource, in pass
declaration order. -/
def collectReaders (ps : List RenderPass) : String → List String :=
  ps.foldl (fun m p => p.readResources.foldl (fun m r => fnPush m r p.name) m)
    (fun _ => [])

/-- Second loop, second half: for every writer, add a dependency on every
reader of the written resource (self-dependencies excluded).  Note the C++
iterates *all* readers, not only those declared before the writer. -/
def loop2 (ps : List RenderPass) (readers : String → List String)
    (d : String → List String) : String → List String :=
  ps.foldl (fun d p =>
    p.writeResources.foldl (fun d r =>
      (readers r).foldl (fun d reader =>
        if reader = p.name then d else fnPush d p.name reader) d) d) d

/-- The dependency map computed by `RenderGraph::buildDependencyGraph` before
the topological sort: initialisation with empty entries, then the two loops. -/
def inferDependencies (ps : List RenderPass) : String → List String :=
  let init := ps.foldl (fun d p => fnSet d p.name []) (fun _ => [])
  loop2 ps (collectReaders ps)
    (ps.foldl loop1Pass (init, fun _ => none)).1

/-- `RenderGraph::topologicalSortUtil`.  `temp` is the in-progress marker set,
the pair carries (`visited`, `result`); `none` models returning `false`.
The fuel bounds the recursion depth (see the header comment). -/
def sortUtil (deps : String → List String) :
    Nat → String → List String → List String × List String →
    Option (List String × List String)
  | 0, _, _, _ => none
  | fuel + 1, node, temp, (visited, result) =>
    if node ∈ temp then none
    else if node ∈ visited then some (visited, result)
    else
      match (deps node).foldlM
        (fun vr d => sortUtil deps fuel d (node :: temp) vr)
        (visited, result) with
      | none => none
      | some (v, r) => some (node :: v, r ++ [node])

/-- The loop of `RenderGraph::topologicalSort` over all passes. -/
def topoLoop (deps : String → List String) (fuel : Nat) :
    List String → List String × List String →
    Option (List String × List String)
  | [], vr => some vr
  | n :: rest, (v, r) =>
    if n ∈ v then topoLoop deps fuel rest (v, r)
    else
      match sortUtil deps fuel n [] (v, r) with
      | none => none
      | some vr' => topoLoop deps fuel rest vr'

/-- `m_passMap[passName]` lookup used to rebuild `m_sortedPasses` (every
result name is a key in practice; a missing key is dropped). -/
def passMapFind (m : List (String × RenderPass)) (k : String) :
    Option RenderPass :=
  (m.find? (fun e => e.1 = k)).map (fun e => e.2)

/-- `RenderGraph::topologicalSort`: DFS over all passes, then the result list
is reversed and resolved through the pass map. -/
def RenderGraph.topologicalSort (g : RenderGraph) : Bool × RenderGraph :=
  match topoLoop g.dependencies (g.passes.length + 1)
      (g.passes.map (fun p => p.name)) ([], []) with
  | none => (false, g)
  | some (_, r) =>
      (true, { g with sortedPasses :=
        r.reverse.filterMap (passMapFind g.passMap) })

/-- `RenderGraph::buildDependencyGraph`: clear and recompute the dependency
map, clear the cached order, topologically sort. -/
def RenderGraph.buildDependencyGraph (g : RenderGraph) : Bool × RenderGraph :=
  RenderGraph.topologicalSort
    { g with dependencies := inferDependencies g.passes, sortedPasses := [] }

/-- `RenderGraph::execute`: rebuild if no order is cached; on failure invoke
nothing; otherwise invoke every sorted pass in order.  Returns the names whose
callbacks ran, with the post-state. -/
def RenderGraph.execute (g : RenderGraph) : List String × RenderGraph :=
  if g.sortedPasses.isEmpty then
    match g.buildDependencyGraph with
    | (false, g') => ([], g')
    | (true, g') => (g'.sortedPasses.map (fun p => p.name), g')
  else
    (g.sortedPasses.map (fun p => p.name), g)

/-! ## Shader graph data model (`ShaderNode.h` / `ShaderNode.cpp`) -/

/-- `NodePin::Type`. -/
inductive PinType
  | float | vec2 | vec3 | vec4 | int | bool | sampler2D | matrix
  deriving DecidableEq

/-- `NodePin`. -/
structure NodePin where
  name : String
  ty : PinType
  defaultValue : String
  isConnected : Bool
  deriving DecidableEq

/-- `MathNode::Operation` (14 named operations; the enum has 15 entries). -/
inductive MathOp
  | add | subtract | multiply | divide | dot | cross | normalize | length
  | power | min | max | abs | sin | cos | tan
  deriving DecidableEq

/-- `InputNode::InputType`. -/
inductive InputType
  | position | normal | uv | color | tangent | bitangent | time
  | cameraPosition | custom
  deriving DecidableEq

/-- `OutputNode::OutputType`. -/
inductive OutputType
  | color | normal | emission | metallic | roughness | ambientOcclusion
  | custom
  deriving DecidableEq

/-- The concrete `ShaderNode` subclass a node was constructed as, with its
type-specific data (the fields serialized by `saveToFile`). -/
inductive NodeKind
  | math (op : MathOp)
  | textureSample
  | vector (components : Nat)
  | input (ty : InputType) (customName : String)
  | output (ty : OutputType) (customName : String)
  deriving DecidableEq

/-- A `ShaderNode` object: identity is the process-wide unique `id`; pins are
mutable data built by the subclass constructor.  Editor coordinates carry no
arithmetic here, so `glm::vec2` is modelled with exact components. -/
structure ShaderNode where
  id : Nat
  name : String
  category : String
  position : Int × Int
  size : Int × Int
  inputPins : List NodePin
  outputPins : List NodePin
  kind : NodeKind
  deriving DecidableEq

/-- `NodeConnection`: the `shared_ptr` endpoints are identified by node id. -/
structure NodeConnection where
  sourceId : Nat
  sourceOutputIndex : Nat
  targetId : Nat
  targetInputIndex : Nat
  deriving DecidableEq

/-- `ShaderGraph` state: the node store (owning list) and connection list. -/
structure ShaderGraph where
  name : String
  nodes : List ShaderNode
  connections : List NodeConnection
  deriving DecidableEq

/-- An input pin as built by `ShaderNode::addInputPin`. -/
def inPin (name : String) (ty : PinType) (dv : String) : NodePin :=
  ⟨name, ty, dv, false⟩

/-- An output pin as built by `ShaderNode::addOutputPin`. -/
def outPin (name : String) (ty : PinType) : NodePin :=
  ⟨name, ty, "", false⟩

/-- `MathNode`'s display name per operation. -/
def mathName : MathOp → String
  | .add => "Add" | .subtract => "Subtract" | .multiply => "Multiply"
  | .divide => "Divide" | .dot => "Dot Product" | .cross => "Cross Product"
  | .normalize => "Normalize" | .length => "Length" | .power => "Power"
  | .min => "Min" | .max => "Max" | .abs => "Absolute" | .sin => "Sine"
  | .cos => "Cosine" | .tan => "Tangent"

/-- `MathNode`'s input pins per operation. -/
def mathInputPins : MathOp → List NodePin
  | .add | .subtract | .multiply | .min | .max =>
      [inPin "A" .float "0.0", inPin "B" .float "0.0"]
  | .divide => [inPin "A" .float "0.0", inPin "B" .float "1.0"]
  | .dot | .cross =>
      [inPin "A" .vec3 "float3(0,0,0)", inPin "B" .vec3 "float3(0,0,0)"]
  | .normalize | .length => [inPin "Vector" .vec3 "float3(0,0,0)"]
  | .power => [inPin "Base" .float "0.0", inPin "Exponent" .float "1.0"]
  | .abs | .sin | .cos | .tan => [inPin "Value" .float "0.0"]

/-- `MathNode`'s output pin per operation. -/
def mathOutputPins : MathOp → List NodePin
  | .cross | .normalize => [outPin "Result" .vec3]
  | _ => [outPin "Result" .float]

/-- `VectorNode`'s input pin names: `std::string(1, 'X' + i)`. -/
def vectorPinName (i : Nat) : String :=
  String.singleton (Char.ofNat ('X'.toNat + i))

/-- `VectorNode`'s output pin type by component count. -/
def vectorOutType : Nat → PinType
  | 2 => .vec2
  | 3 => .vec3
  | 4 => .vec4
  | _ => .float

/-- `InputNode`'s display name per input type. -/
def inputName : InputType → String → String
  | .position, _ => "Position" | .normal, _ => "Normal" | .uv, _ => "UV"
  | .color, _ => "Vertex Color" | .tangent, _ => "Tangent"
  | .bitangent, _ => "Bitangent" | .time, _ => "Time"
  | .cameraPosition, _ => "Camera Position"
  | .custom, customName => customName

/-- `InputNode`'s single output pin per input type. -/
def inputOutputPins : InputType → String → List NodePin
  | .position, _ => [outPin "Position" .vec3]
  | .normal, _ => [outPin "Normal" .vec3]
  | .uv, _ => [outPin "UV" .vec2]
  | .color, _ => [outPin "Color" .vec4]
  | .tangent, _ => [outPin "Tangent" .vec3]
  | .bitangent, _ => [outPin "Bitangent" .vec3]
  | .time, _ => [outPin "Time" .float]
  | .cameraPosition, _ => [outPin "Position" .vec3]
  | .custom, customName => [outPin customName .float]

/-- `OutputNode`'s display name per output type. -/
def outputName : OutputType → String → String
  | .color, _ => "Color Output" | .normal, _ => "Normal Output"
  | .emission, _ => "Emission Output" | .metallic, _ => "Metallic Output"
  | .roughness, _ => "Roughness Output"
  | .ambientOcclusion, _ => "AO Output"
  | .custom, customName => customName ++ " Output"

/-- `OutputNode`'s single input pin per output type. -/
def outputInputPins : OutputType → String → List NodePin
  | .color, _ => [inPin "Color" .vec3 "float3(0,0,0)"]
  | .normal, _ => [inPin "Normal" .vec3 "float3(0,0,1)"]
  | .emission, _ => [inPin "Emission" .vec3 "float3(0,0,0)"]
  | .metallic, _ => [inPin "Metallic" .float "0.0"]
  | .roughness, _ => [inPin "Roughness" .float "0.5"]
  | .ambientOcclusion, _ => [inPin "AO" .float "1.0"]
  | .custom, customName => [inPin customName .float "0.0"]

/-- The subclass constructors reached through `ShaderNodeFactory`: the id is
drawn from the process-wide counter, passed here explicitly.  Default
position/size come from the `ShaderNode` base constructor. -/
def mkNodeOfKind (k : NodeKind) (id : Nat) : ShaderNode :=
  match k with
  | .math op =>
      ⟨id, mathName op, "Math", (0, 0), (200, 150),
        mathInputPins op, mathOutputPins op, k⟩
  | .textureSample =>
      ⟨id, "Texture Sample", "Texture", (0, 0), (200, 150),
        [inPin "Texture" .sampler2D "", inPin "UV" .vec2 "input.texCoord"],
        [outPin "RGBA" .vec4, outPin "RGB" .vec3, outPin "R" .float,
         outPin "G" .float, outPin "B" .float, outPin "A" .float], k⟩
  | .vector n =>
      ⟨id, "Vector" ++ toString n, "Math", (0, 0), (200, 150),
        (List.range n).map (fun i => inPin (vectorPinName i) .float "0.0"),
        [outPin "Vector" (vectorOutType n)], k⟩
  | .input ty customName =>
      ⟨id, inputName ty customName, "Input", (0, 0), (200, 150),
        [], inputOutputPins ty customName, k⟩
  | .output ty customName =>
      ⟨id, outputName ty customName, "Output", (0, 0), (200, 150),
        outputInputPins ty customName, [], k⟩

/-- Update pin `i` of a pin list (`setInputConnected`/`setOutputConnected`
body: guarded in-place update, no-op when the index is out of range). -/
def setPinConnected : List NodePin → Nat → Bool → List NodePin
  | [], _, _ => []
  | p :: rest, 0, b => { p with isConnected := b } :: rest
  | p :: rest, i + 1, b => p :: setPinConnected rest i b

/-- `ShaderNode::setInputConnected`. -/
def ShaderNode.setInputConnected (n : ShaderNode) (i : Nat) (b : Bool) :
    ShaderNode :=
  { n with inputPins := setPinConnected n.inputPins i b }

/-- `ShaderNode::setOutputConnected`. -/
def ShaderNode.setOutputConnected (n : ShaderNode) (i : Nat) (b : Bool) :
    ShaderNode :=
  { n with outputPins := setPinConnected n.outputPins i b }

/-- Mutation of the unique node object with a given id, seen through the
graph's owning store. -/
def updateNode (g : ShaderGraph) (id : Nat) (f : ShaderNode → ShaderNode) :
    ShaderGraph :=
  { g with nodes := g.nodes.map (fun n => if n.id = id then f n else n) }

/-- `ShaderGraph::getNodeById` (`std::find_if` over `m_nodes`). -/
def getNodeById (g : ShaderGraph) (id : Nat) : Option ShaderNode :=
  g.nodes.find? (fun n => n.id = id)

/-- `ShaderGraph::addNode`: fails if a node with the same id exists. -/
def addNode (g : ShaderGraph) (n : ShaderNode) : Bool × ShaderGraph :=
  if g.nodes.any (fun m => m.id = n.id) then (false, g)
  else (true, { g with nodes := g.nodes ++ [n] })

/-- `ShaderGraph::addConnection`: index range checks, then the
target-already-connected check, then both pins are marked connected and the
connection appended. -/
def addConnection (g : ShaderGraph) (sid soi tid tii : Nat) :
    Bool × ShaderGraph :=
  match getNodeById g sid, getNodeById g tid with
  | some s, some t =>
    if soi < s.outputPins.length ∧ tii < t.inputPins.length then
      if g.connections.any
          (fun c => c.targetId = tid ∧ c.targetInputIndex = tii) then
        (false, g)
      else
        let g₁ := updateNode g sid (fun n => n.setOutputConnected soi true)
        let g₂ := updateNode g₁ tid (fun n => n.setInputConnected tii true)
        (true, { g₂ with connections :=
          g₂.connections ++ [⟨sid, soi, tid, tii⟩] })
    else (false, g)
  | _, _ => (false, g)

/-- `ShaderGraph::removeConnection`: find the first connection into the given
target input; unconditionally mark both endpoint pins disconnected and erase
it. -/
def removeConnection (g : ShaderGraph) (tid tii : Nat) : Bool × ShaderGraph :=
  match g.connections.find?
      (fun c => c.targetId = tid ∧ c.targetInputIndex = tii) with
  | none => (false, g)
  | some c =>
      let g₁ := updateNode g c.sourceId
        (fun n => n.setOutputConnected c.sourceOutputIndex false)
      let g₂ := updateNode g₁ c.targetId
        (fun n => n.setInputConnected c.targetInputIndex false)
      let conns := g₂.connections.eraseP
        (fun c' => c'.targetId = tid ∧ c'.targetInputIndex = tii)
      (true, { g₂ with connections := conns })

/-- `ShaderGraph::getConnectionSource` (pure lookup part). -/
def getConnectionSource (g : ShaderGraph) (tid tii : Nat) :
    Option (Nat × Nat) :=
  (g.connections.find?
      (fun c => c.targetId = tid ∧ c.targetInputIndex = tii)).map
    (fun c => (c.sourceId, c.sourceOutputIndex))

/-- The connection-erasing loop of `ShaderGraph::removeNodeById`: walks the
connection list; a connection touching the node is dropped after resetting
the flag of the *other* endpoint's pin (target input if the source is the
removed node, else source output). -/
def cascadeConns (nid : Nat) :
    List NodeConnection → List ShaderNode →
    List NodeConnection × List ShaderNode
  | [], store => ([], store)
  | c :: rest, store =>
    if c.sourceId = nid ∨ c.targetId = nid then
      let store' :=
        if c.sourceId = nid then
          store.map (fun n => if n.id = c.targetId then
            n.setInputConnected c.targetInputIndex false else n)
        else
          store.map (fun n => if n.id = c.sourceId then
            n.setOutputConnected c.sourceOutputIndex false else n)
      cascadeConns nid rest store'
    else
      let (l, store') := cascadeConns nid rest store
      (c :: l, store')

/-- `ShaderGraph::removeNodeById`: cascade the connections, then erase the
node itself (returning `false` if absent, with the cascade effects kept). -/
def removeNodeById (g : ShaderGraph) (nid : Nat) : Bool × ShaderGraph :=
  let (conns, store) := cascadeConns nid g.connections g.nodes
  if store.any (fun n => n.id = nid) then
    (true, { g with nodes := store.eraseP (fun n => n.id = nid),
                    connections := conns })
  else
    (false, { g with nodes := store, connections := conns })

/-! ## Shader code generation (`ShaderGraph.cpp` / `ShaderNode.cpp`)

`generateFragmentShaderCode` passes the *temporary* `ss.str()` as the
`std::string& code` accumulator to `generateNodeCode` (an MSVC extension:
binding a temporary to a non-const reference).  Every fragment a node emits
is therefore appended to a discarded copy of the stream and never reaches
the returned text; only `outputVariables` and `processedNodes` persist
across the walk.  The model reproduces this: `fragWalk` is the node walk
(kept for its bookkeeping), and the returned string is the fixed skeleton. -/

/-- `outputVariables` lookup: `operator[]` yields `""` for a missing key. -/
def ovGet (l : List (Nat × String)) (k : Nat) : String :=
  match l.find? (fun e => e.1 = k) with
  | some e => e.2
  | none => ""

/-- `outputVariables[k] = v`. -/
def ovSet (l : List (Nat × String)) (k : Nat) (v : String) :
    List (Nat × String) :=
  if l.any (fun e => e.1 = k) then
    l.map (fun e => if e.1 = k then (k, v) else e)
  else l ++ [(k, v)]

/-- State threaded through `generateNodeCode`: the (copied) code string, the
output-variable table and the processed-node set. -/
structure GenState where
  code : String
  outputVars : List (Nat × String)
  processed : List Nat
  deriving DecidableEq

/-- The input-expression resolution loop shared by the node `generateCode`
bodies: a connected pin takes the recorded variable of its source output
(key `sourceId * 1000 + outputIndex`), an unconnected pin its default. -/
def resolveInputs (g : ShaderGraph) (n : ShaderNode)
    (ovs : List (Nat × String)) : List String :=
  n.inputPins.mapIdx (fun i p =>
    if p.isConnected then
      match getConnectionSource g n.id i with
      | some (sid, soi) => ovGet ovs (sid * 1000 + soi)
      | none => p.defaultValue
    else p.defaultValue)

/-- `MathNode::generateCode`'s statement for one operation. -/
def mathStmt (op : MathOp) (v a b : String) : String :=
  match op with
  | .add => "float " ++ v ++ " = " ++ a ++ " + " ++ b ++ ";\n"
  | .subtract => "float " ++ v ++ " = " ++ a ++ " - " ++ b ++ ";\n"
  | .multiply => "float " ++ v ++ " = " ++ a ++ " * " ++ b ++ ";\n"
  | .divide => "float " ++ v ++ " = " ++ a ++ " / " ++ b ++ ";\n"
  | .dot => "float " ++ v ++ " = dot(" ++ a ++ ", " ++ b ++ ");\n"
  | .cross => "float3 " ++ v ++ " = cross(" ++ a ++ ", " ++ b ++ ");\n"
  | .normalize => "float3 " ++ v ++ " = normalize(" ++ a ++ ");\n"
  | .length => "float " ++ v ++ " = length(" ++ a ++ ");\n"
  | .power => "float " ++ v ++ " = pow(" ++ a ++ ", " ++ b ++ ");\n"
  | .min => "float " ++ v ++ " = min(" ++ a ++ ", " ++ b ++ ");\n"
  | .max => "float " ++ v ++ " = max(" ++ a ++ ", " ++ b ++ ");\n"
  | .abs => "float " ++ v ++ " = abs(" ++ a ++ ");\n"
  | .sin => "float " ++ v ++ " = sin(" ++ a ++ ");\n"
  | .cos => "float " ++ v ++ " = cos(" ++ a ++ ");\n"
  | .tan => "float " ++ v ++ " = tan(" ++ a ++ ");\n"

/-- `InputNode::generateCode`'s bound expression per input type. -/
def inputExpr (ty : InputType) (customName : String) : String :=
  match ty with
  | .position => "input.position"
  | .normal => "input.normal"
  | .uv => "input.texCoord"
  | .color => "input.color"
  | .tangent => "input.tangent"
  | .bitangent => "input.bitangent"
  | .time => "Time"
  | .cameraPosition => "CameraPosition"
  | .custom => customName

/-- `OutputNode::generateCode`'s semantic field per output type. -/
def outputField (ty : OutputType) (customName : String) : String :=
  match ty with
  | .color => "color"
  | .normal => "normal"
  | .emission => "emission"
  | .metallic => "metallic"
  | .roughness => "roughness"
  | .ambientOcclusion => "ao"
  | .custom => customName

/-- Comma-joined argument list for the `VectorNode` constructor call. -/
def joinArgs : List String → String
  | [] => ""
  | [a] => a
  | a :: rest => a ++ ", " ++ joinArgs rest

/-- The virtual `ShaderNode::generateCode` dispatch: the emitted statement
text and the updated output-variable table (every override returns true). -/
def nodeEmit (g : ShaderGraph) (n : ShaderNode)
    (ovs : List (Nat × String)) : String × List (Nat × String) :=
  match n.kind with
  | .math op =>
      let vars := resolveInputs g n ovs
      let v := "math_" ++ toString n.id
      (mathStmt op v (vars.getD 0 "") (vars.getD 1 ""),
       ovSet ovs (n.id * 1000) v)
  | .textureSample =>
      let vars := resolveInputs g n ovs
      let v := "texSample_" ++ toString n.id
      let stmt := "float4 " ++ v ++ " = " ++ vars.getD 0 "" ++ ".Sample("
        ++ vars.getD 0 "" ++ "Sampler, " ++ vars.getD 1 "" ++ ");\n"
      let ovs := ovSet ovs (n.id * 1000) v
      let ovs := ovSet ovs (n.id * 1000 + 1) (v ++ ".rgb")
      let ovs := ovSet ovs (n.id * 1000 + 2) (v ++ ".r")
      let ovs := ovSet ovs (n.id * 1000 + 3) (v ++ ".g")
      let ovs := ovSet ovs (n.id * 1000 + 4) (v ++ ".b")
      let ovs := ovSet ovs (n.id * 1000 + 5) (v ++ ".a")
      (stmt, ovs)
  | .vector m =>
      let vars := resolveInputs g n ovs
      let v := "vector_" ++ toString n.id
      let stmt := "float" ++ toString m ++ " " ++ v ++ " = float"
        ++ toString m ++ "("
        ++ joinArgs ((List.range m).map (fun i => vars.getD i "")) ++ ");\n"
      (stmt, ovSet ovs (n.id * 1000) v)
  | .input ty cname =>
      ("", ovSet ovs (n.id * 1000) (inputExpr ty cname))
  | .output ty cname =>
      let p := n.inputPins.getD 0 (inPin "" .float "")
      let inputVar :=
        if p.isConnected then
          match getConnectionSource g n.id 0 with
          | some (sid, soi) => ovGet ovs (sid * 1000 + soi)
          | none => ""
        else p.defaultValue
      ("output." ++ outputField ty cname ++ " = " ++ inputVar ++ ";\n", ovs)

/-- `ShaderGraph::generateNodeCode`: emit all connected input dependencies
first (depth-first), then this node, marking it processed.  The fuel bounds
the recursion depth; on an acyclic graph `nodes.length + 1` is never
exhausted (a cycle would make the C++ recurse without bound — `none`). -/
def genNodeCode (g : ShaderGraph) :
    Nat → ShaderNode → GenState → Option GenState
  | 0, _, _ => none
  | fuel + 1, n, st =>
    if st.processed.contains n.id then some st
    else
      match n.inputPins.enum.foldlM
        (fun st' ip =>
          if ip.2.isConnected then
            match getConnectionSource g n.id ip.1 with
            | some (sid, _) =>
                match getNodeById g sid with
                | some sn => genNodeCode g fuel sn st'
                | none => some st'
            | none => some st'
          else some st') st with
      | none => none
      | some st' =>
          let (stmt, ovs) := nodeEmit g n st'.outputVars
          some ⟨st'.code ++ stmt, ovs,
            if st'.processed.contains n.id then st'.processed
            else st'.processed ++ [n.id]⟩

/-- `ShaderGraph::findOutputNodes`. -/
def findOutputNodes (g : ShaderGraph) : List ShaderNode :=
  g.nodes.filter (fun n =>
    match n.kind with
    | .output _ _ => true
    | _ => false)

/-- `generateFragmentStructures()`. -/
def fragmentStructures : String :=
  "// Fragment shader output structure\nstruct FragmentOutput \x7b\n    float3 color;\n    float3 normal;\n    float3 emission;\n    float metallic;\n    float roughness;\n    float ao;\n\x7d;\n\n"

/-- The `PSMain` prologue written to the stream before the node walk. -/
def psMainHeader : String :=
  "float4 PSMain(VertexOutput input) : SV_TARGET \x7b\n    FragmentOutput output;\n    output.color = float3(0, 0, 0);\n    output.normal = input.normal;\n    output.emission = float3(0, 0, 0);\n    output.metallic = 0.0;\n    output.roughness = 0.5;\n    output.ao = 1.0;\n\n"

/-- The `PSMain` epilogue written after the walk. -/
def psMainFooter : String :=
  "    return float4(output.color, 1.0);\n\x7d\n"

/-- The per-output-node walk of `generateFragmentShaderCode`.  Each
iteration hands `generateNodeCode` a fresh copy of the stream contents
(the temporary `ss.str()`), so only the variable table and processed set
survive; the top-level call discards the boolean result. -/
def fragWalk (g : ShaderGraph) : List (Nat × String) × List Nat :=
  (findOutputNodes g).foldl
    (fun acc onode =>
      match genNodeCode g (g.nodes.length + 1) onode
        ⟨fragmentStructures ++ psMainHeader, acc.1, acc.2⟩ with
      | some st => (st.outputVars, st.processed)
      | none => acc)
    ([], [])

/-- `ShaderGraph::generateFragmentShaderCode`: structures, prologue, the
walk whose code lands in the discarded temporary, epilogue. -/
def generateFragmentShaderCode (g : ShaderGraph) : String :=
  let _walk := fragWalk g
  fragmentStructures ++ psMainHeader ++ psMainFooter

/-- Does `pat` lead the character list `s`? -/
def leadsWith : List Char → List Char → Bool
  | [], _ => true
  | _ :: _, [] => false
  | p :: ps, c :: cs => p = c && leadsWith ps cs

/-- Number of positions of `s` at which `pat` occurs. -/
def occCount (pat : List Char) : List Char → Nat
  | [] => if leadsWith pat [] then 1 else 0
  | c :: t => (if leadsWith pat (c :: t) then 1 else 0) + occCount pat t

/-- Number of occurrences of the (non-empty) pattern `pat` in `s`. -/
def countOccs (s pat : String) : Nat := occCount pat.data s.data

/-! ## Save / load (`ShaderGraph::saveToFile` / `ShaderGraph::loadFromFile`)

The JSON layer (nlohmann dump + parse) is treated as the identity on the
structured document; `SavedDoc` is the document written by `saveToFile`.
All five serializable node kinds carry their type tag and type-specific
fields in `NodeKind`. -/

/-- One entry of the document's `nodes` array. -/
structure SavedNode where
  id : Nat
  name : String
  category : String
  position : Int × Int
  size : Int × Int
  kind : NodeKind
  deriving DecidableEq

/-- The serialized shader-graph document. -/
structure SavedDoc where
  name : String
  nodes : List SavedNode
  connections : List NodeConnection
  deriving DecidableEq

/-- One node's document entry: the common fields plus the
`dynamic_pointer_cast`-selected type data. -/
def toSavedNode (n : ShaderNode) : SavedNode :=
  ⟨n.id, n.name, n.category, n.position, n.size, n.kind⟩

/-- `ShaderGraph::saveToFile`: the node entries then the connection list. -/
def saveDoc (g : ShaderGraph) : SavedDoc :=
  ⟨g.name, g.nodes.map toSavedNode, g.connections⟩

/-- `nodesMap[old] = node` (unordered_map assignment). -/
def idMapSet (m : List (Nat × Nat)) (k v : Nat) : List (Nat × Nat) :=
  if m.any (fun e => e.1 = k) then
    m.map (fun e => if e.1 = k then (k, v) else e)
  else m ++ [(k, v)]

/-- `nodesMap` lookup; `none` models the null `shared_ptr` the C++
`operator[]` inserts for an unseen id. -/
def idMapGet (m : List (Nat × Nat)) (k : Nat) : Option Nat :=
  (m.find? (fun e => e.1 = k)).map (fun e => e.2)

/-- The node-creation loop of `loadFromFile`: each saved node is rebuilt
through the factory (consuming a fresh id from the process-wide counter),
gets its position/size restored, and is added to the graph and the id map. -/
def loadNodesPhase :
    List SavedNode → ShaderGraph → List (Nat × Nat) → Nat →
    ShaderGraph × List (Nat × Nat) × Nat
  | [], g, m, nid => (g, m, nid)
  | sn :: rest, g, m, nid =>
      let node := { mkNodeOfKind sn.kind nid with
        position := sn.position, size := sn.size }
      loadNodesPhase rest (addNode g node).2 (idMapSet m sn.id nid) (nid + 1)

/-- The connection-recreation loop of `loadFromFile`: both endpoints are
resolved through the id map (a missing endpoint is skipped), then
`addConnection` replays the edge. -/
def loadConnsPhase :
    List NodeConnection → List (Nat × Nat) → ShaderGraph → ShaderGraph
  | [], _, g => g
  | c :: rest, m, g =>
      match idMapGet m c.sourceId, idMapGet m c.targetId with
      | some s, some t =>
          loadConnsPhase rest m
            (addConnection g s c.sourceOutputIndex t c.targetInputIndex).2
      | _, _ => loadConnsPhase rest m g

/-- `ShaderGraph::loadFromFile` on an already-parsed document; `startId` is
the current value of the process-wide node-id counter. -/
def loadDoc (doc : SavedDoc) (startId : Nat) : ShaderGraph :=
  let (g, m, _) := loadNodesPhase doc.nodes ⟨doc.name, [], []⟩ [] startId
  loadConnsPhase doc.connections m g

/-! ## Custom node definitions (`CustomNodeSDK.cpp`)

`JsonNodeDefinition::parseJson` assigns the member fields *in place* as it
parses; `reload` funnels the new file content straight through it.  The
file content is modelled post-JSON-lexing: `none` for unparseable text
(`nlohmann::json::parse` throws before any field is assigned), otherwise a
`NodeSpec` whose `Option` fields record which keys are present (a missing
key makes the C++ `get<std::string>` throw at its point of use). -/

/-- The parsed state of a `JsonNodeDefinition` (the fields `parseJson`
writes). -/
structure CustomNodeDef where
  name : String
  category : String
  description : String
  inputPins : List NodePin
  outputPins : List NodePin
  codeTemplate : String
  deriving DecidableEq

/-- One entry of the `inputs`/`outputs` arrays of a definition file. -/
structure PinSpec where
  name : Option String
  ty : Option String
  defaultValue : Option String
  deriving DecidableEq

/-- A well-lexed definition file. -/
structure NodeSpec where
  name : Option String
  category : Option String
  description : Option String
  inputs : List PinSpec
  outputs : List PinSpec
  code : Option String
  deriving DecidableEq

/-- The pin-type string dispatch; an unknown string is a hard failure. -/
def parsePinType (s : String) : Option PinType :=
  if s = "float" then some .float
  else if s = "vec2" then some .vec2
  else if s = "vec3" then some .vec3
  else if s = "vec4" then some .vec4
  else if s = "int" then some .int
  else if s = "bool" then some .bool
  else if s = "sampler2D" then some .sampler2D
  else if s = "matrix" then some .matrix
  else none

/-- Parse one pin entry (input pins read an optional default value; output
pins leave the default empty). -/
def parsePinSpec (isInput : Bool) (p : PinSpec) : Option NodePin :=
  match p.name, p.ty with
  | some nm, some tys =>
      (parsePinType tys).map (fun t =>
        ⟨nm, t, if isInput then p.defaultValue.getD "" else "", false⟩)
  | _, _ => none

/-- The pin loop: the member list was already cleared; each parsed pin is
pushed, and a failure stops mid-list, keeping the partial result. -/
def parsePinsLoop (isInput : Bool) :
    List PinSpec → List NodePin → Bool × List NodePin
  | [], acc => (true, acc)
  | p :: rest, acc =>
    match parsePinSpec isInput p with
    | none => (false, acc)
    | some pin => parsePinsLoop isInput rest (acc ++ [pin])

/-- `JsonNodeDefinition::parseJson`: field-by-field in-place assignment with
early exit — exactly the C++ statement order.  The returned state is what
the member fields hold when the function returns. -/
def parseJson (c : Option NodeSpec) (d : CustomNodeDef) :
    Bool × CustomNodeDef :=
  match c with
  | none => (false, d)
  | some spec =>
    match spec.name with
    | none => (false, d)
    | some nm =>
      let d₁ := { d with name := nm }
      match spec.category with
      | none => (false, d₁)
      | some cat =>
        let d₂ := { d₁ with category := cat }
        match spec.description with
        | none => (false, d₂)
        | some desc =>
          let d₃ := { d₂ with description := desc }
          let r := parsePinsLoop true spec.inputs []
          let d₄ := { d₃ with inputPins := r.2 }
          if r.1 then
            let r' := parsePinsLoop false spec.outputs []
            let d₅ := { d₄ with outputPins := r'.2 }
            if r'.1 then
              match spec.code with
              | none => (false, d₅)
              | some cd => (true, { d₅ with codeTemplate := cd })
            else (false, d₅)
          else (false, d₄)

/-- `JsonNodeDefinition::reload`: an unreadable file fails before parsing
(definition untouched); otherwise the new content goes through `parseJson`
on the live member fields. -/
def reloadDef (fileContent : Option (Option NodeSpec)) (d : CustomNodeDef) :
    Bool × CustomNodeDef :=
  match fileContent with
  | none => (false, d)
  | some c => parseJson c d

/-! ## Concrete fixtures used by the claim theorems -/

/-- Build a graph by `addPass` in list order. -/
def rgOf (l : List RenderPass) : RenderGraph :=
  l.foldl (fun g p => (g.addPass p).2) ( RenderGraph.mk' "rg")

/-- `{Shadow: writes ShadowMap}`. -/
def shadowPass : RenderPass :=
  (RenderPass.mk "Shadow" [] []).addWriteResource "ShadowMap"

/-- `{Geometry: reads ShadowMap, writes GBuffer}`. -/
def geometryPass : RenderPass :=
  ((RenderPass.mk "Geometry" [] []).addReadResource "ShadowMap").addWriteResource
    "GBuffer"

/-- `{Post: reads GBuffer, writes Final}`. -/
def postPass : RenderPass :=
  ((RenderPass.mk "Post" [] []).addReadResource "GBuffer").addWriteResource
    "Final"

/-- `{A: reads X}`. -/
def readerPassA : RenderPass := (RenderPass.mk "A" [] []).addReadResource "X"

/-- `{B: writes X}`. -/
def writerPassB : RenderPass := (RenderPass.mk "B" [] []).addWriteResource "X"

/-- Spec §8 cycle example: Z reads W and writes Y. -/
def cyclePassZ : RenderPass :=
  ((RenderPass.mk "Z" [] []).addReadResource "W").addWriteResource "Y"

/-- Spec §8 cycle example: X reads Y and writes W. -/
def cyclePassX : RenderPass :=
  ((RenderPass.mk "X" [] []).addReadResource "Y").addWriteResource "W"

/-- Diamond shader graph: one shared upstream `Add` node (id 1) consumed by
`Sine` (id 10) and `Cosine` (id 11), merged by a `Vector2` (id 12) feeding
the color output (id 13). -/
def diamondGraph : ShaderGraph :=
  let g := [mkNodeOfKind (.math .add) 1, mkNodeOfKind (.math .sin) 10,
            mkNodeOfKind (.math .cos) 11, mkNodeOfKind (.vector 2) 12,
            mkNodeOfKind (.output .color "") 13].foldl
    (fun g n => (addNode g n).2) ⟨"diamond", [], []⟩
  let g := (addConnection g 1 0 10 0).2
  let g := (addConnection g 1 0 11 0).2
  let g := (addConnection g 10 0 12 0).2
  let g := (addConnection g 11 0 12 1).2
  (addConnection g 12 0 13 0).2

/-- Fan-out fixture before removal: `Add` node (id 1) whose single output
feeds two output nodes (ids 2 and 3). -/
def fanGraph : ShaderGraph :=
  let g := [mkNodeOfKind (.math .add) 1, mkNodeOfKind (.output .color "") 2,
            mkNodeOfKind (.output .emission "") 3].foldl
    (fun g n => (addNode g n).2) ⟨"fan", [], []⟩
  let g := (addConnection g 1 0 2 0).2
  (addConnection g 1 0 3 0).2

/-- The fan-out fixture after removing only the connection into node 2. -/
def fanGraphAfter : ShaderGraph := (removeConnection fanGraph 2 0).2

/-- A previously valid data-driven node definition. -/
def oldDef : CustomNodeDef :=
  ⟨"OldNode", "OldCat", "old description",
   [⟨"X", .float, "0.0", false⟩], [⟨"Out", .float, "", false⟩],
   "float \x7b\x7bOut_out\x7d\x7d = \x7b\x7bX\x7d\x7d;"⟩

/-- New file content whose second input pin has the unknown type
`"quaternion"`: parsing fails halfway through the input-pin loop. -/
def newContent : Option NodeSpec :=
  some ⟨some "NewNode", some "NewCat", some "new description",
        [⟨some "A", some "float", some "1.0"⟩,
         ⟨some "B", some "quaternion", none⟩],
        [⟨some "Res", some "vec3", none⟩], some "new code"⟩

/-! ## Claim theorems (first group: direct evaluations) -/

/-- C1: the claim asserts that for the pass set
`{Shadow: writes ShadowMap}`, `{Geometry: reads ShadowMap, writes GBuffer}`,
`{Post: reads GBuffer, writes Final}`, every insertion order builds
successfully and executes Shadow before Geometry before Post, and that for
`{A: reads X}`, `{B: writes X}` added in order A, B the sorted order places
A before B.  The code refutes both parts: with the canonical insertion
order `buildDependencyGraph` returns `false` (the write-after-read loop
adds a `writer depends on reader` edge for *every* reader, which together
with the read-after-write edge forms a Shadow↔Geometry 2-cycle), and the
A/B graph builds but sorts as `[B, A]` (the post-order DFS result, which
already lists dependencies first, is reversed). -/
theorem buildDependencyGraph_canonical_fails_and_order_reversed :
    ((rgOf [shadowPass, geometryPass, postPass]).buildDependencyGraph).1
      = false ∧
    ((rgOf [readerPassA, writerPassB]).buildDependencyGraph).1 = true ∧
    ((rgOf [readerPassA, writerPassB]).buildDependencyGraph).2.sortedPasses.map
        (fun p => p.name) = ["B", "A"] ∧
    (((rgOf [readerPassA, writerPassB]).buildDependencyGraph).2.execute).1
      = ["B", "A"] := by
  refine ⟨by decide, by decide, by decide, by decide⟩

set_option maxRecDepth 100000 in
/-- C2: the claim asserts the shared upstream node of a diamond emits its
code exactly once in the text returned by `generateFragmentShaderCode`.
In the code the per-node fragments are appended to the *temporary*
`ss.str()` passed as the `std::string&` accumulator and are discarded, so
the returned text contains the upstream `Add` node's statement zero times
— even though the processed set shows the walk visited every node (the
shared node included) exactly once. -/
theorem diamond_upstream_fragment_absent_from_output :
    countOccs (generateFragmentShaderCode diamondGraph) "float math_1 = " = 0
    ∧ (fragWalk diamondGraph).2 = [1, 10, 11, 12, 13] := by
  refine ⟨by decide, by decide⟩

/-- C9: the text returned by `generateFragmentShaderCode` is a function of
the graph value alone — indeed it is the fixed skeleton
(structures, `PSMain` prologue, epilogue), because every node-emitted
fragment lands in the discarded temporary — so two consecutive calls on an
unmodified graph return identical text. -/
theorem generateFragmentShaderCode_deterministic (g : ShaderGraph) :
    generateFragmentShaderCode g
      = fragmentStructures ++ psMainHeader ++ psMainFooter := rfl

/-- C4: the claim asserts a failed `reload()` leaves every field of a
previously valid definition untouched.  Reloading `oldDef` against content
whose second input pin has the unknown type `"quaternion"` returns `false`
yet leaves the definition half-updated: name/category/description already
hold the *new* values, the input-pin list holds the partially parsed new
pins, while the output pins and code template still hold the old values. -/
theorem reload_failure_leaves_half_updated_definition :
    (reloadDef (some newContent) oldDef).1 = false ∧
    (reloadDef (some newContent) oldDef).2.name = "NewNode" ∧
    (reloadDef (some newContent) oldDef).2.category = "NewCat" ∧
    (reloadDef (some newContent) oldDef).2.inputPins
      = [⟨"A", .float, "1.0", false⟩] ∧
    (reloadDef (some newContent) oldDef).2.outputPins = oldDef.outputPins ∧
    (reloadDef (some newContent) oldDef).2.codeTemplate = oldDef.codeTemplate ∧
    (reloadDef (some newContent) oldDef).2 ≠ oldDef := by
  refine ⟨by decide, by decide, by decide, by decide, by decide, by decide,
    by decide⟩

/-- C5 counterexample: starting from the fan-out fixture (output pin 0 of
node 1 feeding both node 2 and node 3), removing only the connection into
node 2 leaves the connection `1 → 3` in the table while node 1's output pin
is flagged *disconnected* — `removeConnection` clears the source pin's flag
unconditionally — refuting the claimed `isConnected ↔ connection exists`
correspondence for output pins. -/
theorem removeConnection_fanout_clears_connected_output_pin :
    (getNodeById fanGraphAfter 1).map
        (fun n => n.outputPins.map (fun p => p.isConnected)) = some [false] ∧
    fanGraphAfter.connections = [⟨1, 0, 3, 0⟩] := by
  refine ⟨by decide, by decide⟩

/-! ## Shader-graph invariants over states reachable through the public
interface -/

/-- A node as produced by the factory: every pin still disconnected. -/
def freshPins (n : ShaderNode) : Prop :=
  (∀ p ∈ n.inputPins, p.isConnected = false) ∧
  (∀ p ∈ n.outputPins, p.isConnected = false)

/-- States reachable from a fresh graph through the public mutators (each
constructor keeps the returned state whether the call succeeded or not). -/
inductive Reachable : ShaderGraph → Prop
  | empty (name : String) : Reachable ⟨name, [], []⟩
  | addN {g : ShaderGraph} {n : ShaderNode} :
      Reachable g → freshPins n → Reachable (addNode g n).2
  | addC {g : ShaderGraph} {sid soi tid tii : Nat} :
      Reachable g → Reachable (addConnection g sid soi tid tii).2
  | remC {g : ShaderGraph} {tid tii : Nat} :
      Reachable g → Reachable (removeConnection g tid tii).2
  | remN {g : ShaderGraph} {nid : Nat} :
      Reachable g → Reachable (removeNodeById g nid).2

/-- The `isConnected` flag of input pin `i` of node `id`. -/
def inputFlagAt (g : ShaderGraph) (id i : Nat) : Option Bool :=
  (getNodeById g id).bind (fun n => n.inputPins[i]?.map
    (fun p => p.isConnected))

/-- The `isConnected` flag of output pin `i` of node `id`. -/
def outputFlagAt (g : ShaderGraph) (id i : Nat) : Option Bool :=
  (getNodeById g id).bind (fun n => n.outputPins[i]?.map
    (fun p => p.isConnected))

/-- The graph well-formedness invariant: unique node ids, connections
reference present nodes at valid pin indices, at most one connection per
target input, input-pin flags agree exactly with the connection table, and
a set output-pin flag is backed by at least one connection (the converse
fails in the code — see the C5 counterexample). -/
structure GraphWF (g : ShaderGraph) : Prop where
  idsNodup : (g.nodes.map (fun n => n.id)).Nodup
  srcValid : ∀ c ∈ g.connections, ∃ n ∈ g.nodes,
    n.id = c.sourceId ∧ c.sourceOutputIndex < n.outputPins.length
  tgtValid : ∀ c ∈ g.connections, ∃ n ∈ g.nodes,
    n.id = c.targetId ∧ c.targetInputIndex < n.inputPins.length
  tgtUnique : g.connections.Pairwise (fun c c' =>
    ¬(c.targetId = c'.targetId ∧ c.targetInputIndex = c'.targetInputIndex))
  inFlag : ∀ n ∈ g.nodes, ∀ i p, n.inputPins[i]? = some p →
    (p.isConnected = true ↔
      ∃ c ∈ g.connections, c.targetId = n.id ∧ c.targetInputIndex = i)
  outFlag : ∀ n ∈ g.nodes, ∀ i p, n.outputPins[i]? = some p →
    p.isConnected = true →
      ∃ c ∈ g.connections, c.sourceId = n.id ∧ c.sourceOutputIndex = i

theorem setPinConnected_get? :
    ∀ (pins : List NodePin) (i : Nat) (b : Bool) (j : Nat),
    (setPinConnected pins i b)[j]? =
      pins[j]?.map
        (fun p => if j = i then { p with isConnected := b } else p)
  | [], i, b, j => by simp [setPinConnected]
  | p :: rest, 0, b, 0 => by simp [setPinConnected]
  | p :: rest, 0, b, j + 1 => by simp [setPinConnected]
  | p :: rest, i + 1, b, 0 => by simp [setPinConnected]
  | p :: rest, i + 1, b, j + 1 => by
    have hc : ((j + 1 = i + 1) : Prop) = ((j = i) : Prop) :=
      propext (by omega)
    simp [setPinConnected, setPinConnected_get? rest i b j, hc]

theorem setPinConnected_length (pins : List NodePin) (i : Nat) (b : Bool) :
    (setPinConnected pins i b).length = pins.length := by
  induction pins generalizing i with
  | nil => cases i <;> rfl
  | cons p rest ih => cases i <;> simp [setPinConnected, ih]

theorem find?_map_id_preserved {F : ShaderNode → ShaderNode}
    (hF : ∀ n, (F n).id = n.id) (store : List ShaderNode) (id : Nat) :
    (store.map F).find? (fun n => n.id = id) =
      (store.find? (fun n => n.id = id)).map F := by
  induction store with
  | nil => rfl
  | cons n rest ih =>
    by_cases h : n.id = id
    · simp [List.find?_cons, hF n, h]
    · simp [List.find?_cons, hF n, h, ih]

theorem setInputConnected_id (n : ShaderNode) (i : Nat) (b : Bool) :
    (n.setInputConnected i b).id = n.id := rfl

theorem setOutputConnected_id (n : ShaderNode) (i : Nat) (b : Bool) :
    (n.setOutputConnected i b).id = n.id := rfl

theorem getNodeById_mem {g : ShaderGraph} {id : Nat} {n : ShaderNode}
    (h : getNodeById g id = some n) : n ∈ g.nodes ∧ n.id = id := by
  refine ⟨List.mem_of_find?_eq_some h, ?_⟩
  have hp := List.find?_some h
  exact of_decide_eq_true hp

theorem nodupId_unique {l : List ShaderNode}
    (h : (l.map (fun n => n.id)).Nodup) {a b : ShaderNode}
    (ha : a ∈ l) (hb : b ∈ l) (hab : a.id = b.id) : a = b :=
  List.inj_on_of_nodup_map h ha hb hab

theorem any_eq_false_forall {l : List NodeConnection}
    {p : NodeConnection → Bool} (h : ¬ l.any p = true) :
    ∀ c ∈ l, ¬ p c = true := by
  intro c hc hpc
  exact h (List.any_eq_true.mpr ⟨c, hc, hpc⟩)

/-- `addNode` preserves the invariant (the added node is factory fresh). -/
theorem GraphWF.addNode_pres {g : ShaderGraph} (W : GraphWF g)
    {n : ShaderNode} (hf : freshPins n) :
    GraphWF (addNode g n).2 := by
  unfold ElementalRenderer.addNode
  by_cases h : g.nodes.any (fun m => m.id = n.id) = true
  · simpa [h] using W
  · have hid : ∀ m ∈ g.nodes, ¬ m.id = n.id := by
      intro m hm hmn
      exact h (List.any_eq_true.mpr ⟨m, hm, decide_eq_true hmn⟩)
    rw [if_neg h]
    constructor
    · simp only [List.map_append, List.map_cons, List.map_nil]
      refine List.Nodup.append W.idsNodup (List.nodup_singleton _) ?_
      intro x hx hy
      rcases List.mem_map.mp hx with ⟨m, hm, hxm⟩
      rcases List.mem_singleton.mp hy with rfl
      exact hid m hm hxm
    · intro c hc
      rcases W.srcValid c hc with ⟨m, hm, h1, h2⟩
      exact ⟨m, List.mem_append_left _ hm, h1, h2⟩
    · intro c hc
      rcases W.tgtValid c hc with ⟨m, hm, h1, h2⟩
      exact ⟨m, List.mem_append_left _ hm, h1, h2⟩
    · exact W.tgtUnique
    · intro m hm i p hp
      rcases List.mem_append.mp hm with hm | hm
      · exact W.inFlag m hm i p hp
      · rcases List.mem_singleton.mp hm with rfl
        constructor
        · intro htrue
          have := hf.1 p (List.getElem?_mem hp)
          simp [this] at htrue
        · rintro ⟨c, hc, h1, -⟩
          rcases W.tgtValid c hc with ⟨m', hm', h1', -⟩
          exact absurd (h1'.trans h1) (hid m' hm')
    · intro m hm i p hp
      rcases List.mem_append.mp hm with hm | hm
      · intro ht
        rcases W.outFlag m hm i p hp ht with ⟨c, hc, h1, h2⟩
        exact ⟨c, hc, h1, h2⟩
      · rcases List.mem_singleton.mp hm with rfl
        intro htrue
        have := hf.2 p (List.getElem?_mem hp)
        simp [this] at htrue

/-- The first node-store update of a successful `addConnection`
(`sourceNode->setOutputConnected(sourceOutputIndex, true)` seen through the
store). -/
def connF1 (sid soi : Nat) (b : Bool) (n : ShaderNode) : ShaderNode :=
  if n.id = sid then n.setOutputConnected soi b else n

/-- The second node-store update of a successful `addConnection`
(`targetNode->setInputConnected(targetInputIndex, true)`). -/
def connF2 (tid tii : Nat) (b : Bool) (n : ShaderNode) : ShaderNode :=
  if n.id = tid then n.setInputConnected tii b else n

theorem connF1_id (sid soi : Nat) (b : Bool) (n : ShaderNode) :
    (connF1 sid soi b n).id = n.id := by
  unfold connF1; split <;> rfl

theorem connF1_inputPins (sid soi : Nat) (b : Bool) (n : ShaderNode) :
    (connF1 sid soi b n).inputPins = n.inputPins := by
  unfold connF1; split <;> rfl

theorem connF1_outputPins (sid soi : Nat) (b : Bool) (n : ShaderNode) :
    (connF1 sid soi b n).outputPins =
      if n.id = sid then setPinConnected n.outputPins soi b
      else n.outputPins := by
  unfold connF1; split <;> rfl

theorem connF2_id (tid tii : Nat) (b : Bool) (n : ShaderNode) :
    (connF2 tid tii b n).id = n.id := by
  unfold connF2; split <;> rfl

theorem connF2_outputPins (tid tii : Nat) (b : Bool) (n : ShaderNode) :
    (connF2 tid tii b n).outputPins = n.outputPins := by
  unfold connF2; split <;> rfl

theorem connF2_inputPins (tid tii : Nat) (b : Bool) (n : ShaderNode) :
    (connF2 tid tii b n).inputPins =
      if n.id = tid then setPinConnected n.inputPins tii b
      else n.inputPins := by
  unfold connF2; split <;> rfl

theorem connF_id (sid soi tid tii : Nat) (b₁ b₂ : Bool) (n : ShaderNode) :
    (connF2 tid tii b₂ (connF1 sid soi b₁ n)).id = n.id := by
  rw [connF2_id, connF1_id]

theorem connF_inputPins (sid soi tid tii : Nat) (b₁ b₂ : Bool) (n : ShaderNode) :
    (connF2 tid tii b₂ (connF1 sid soi b₁ n)).inputPins =
      if n.id = tid then setPinConnected n.inputPins tii b₂
      else n.inputPins := by
  rw [connF2_inputPins, connF1_inputPins, connF1_id]

theorem connF_outputPins (sid soi tid tii : Nat) (b₁ b₂ : Bool) (n : ShaderNode) :
    (connF2 tid tii b₂ (connF1 sid soi b₁ n)).outputPins =
      if n.id = sid then setPinConnected n.outputPins soi b₁
      else n.outputPins := by
  rw [connF2_outputPins, connF1_outputPins]

theorem connF_inputPins_length (sid soi tid tii : Nat) (b₁ b₂ : Bool)
    (n : ShaderNode) :
    (connF2 tid tii b₂ (connF1 sid soi b₁ n)).inputPins.length
      = n.inputPins.length := by
  rw [connF_inputPins]
  split <;> simp [setPinConnected_length]

theorem connF_outputPins_length (sid soi tid tii : Nat) (b₁ b₂ : Bool)
    (n : ShaderNode) :
    (connF2 tid tii b₂ (connF1 sid soi b₁ n)).outputPins.length
      = n.outputPins.length := by
  rw [connF_outputPins]
  split <;> simp [setPinConnected_length]

/-- The state produced by a successful `addConnection`, explicitly. -/
theorem GraphWF.addConn_success {g : ShaderGraph} (W : GraphWF g)
    {sid soi tid tii : Nat} {s t : ShaderNode}
    (hs : getNodeById g sid = some s) (ht : getNodeById g tid = some t)
    (hso : soi < s.outputPins.length) (hti : tii < t.inputPins.length)
    (hdup : ∀ c ∈ g.connections,
      ¬(c.targetId = tid ∧ c.targetInputIndex = tii)) :
    GraphWF ⟨g.name, (g.nodes.map (connF1 sid soi true)).map (connF2 tid tii true),
             g.connections ++ [⟨sid, soi, tid, tii⟩]⟩ := by
  obtain ⟨hsmem, hsid⟩ := getNodeById_mem hs
  obtain ⟨htmem, htid⟩ := getNodeById_mem ht
  have hmm : (g.nodes.map (connF1 sid soi true)).map (connF2 tid tii true)
      = g.nodes.map (fun n => connF2 tid tii true (connF1 sid soi true n)) := by
    rw [List.map_map]; rfl
  rw [hmm]
  constructor
  · show ((g.nodes.map fun n => connF2 tid tii true (connF1 sid soi true n)).map
      (fun n => n.id)).Nodup
    rw [List.map_map]
    have : ((fun n : ShaderNode => n.id) ∘
        fun n => connF2 tid tii true (connF1 sid soi true n))
        = fun n : ShaderNode => n.id :=
      funext (connF_id sid soi tid tii true true)
    rw [this]; exact W.idsNodup
  · intro c hc
    rcases List.mem_append.mp hc with hc | hc
    · rcases W.srcValid c hc with ⟨m, hm, h1, h2⟩
      refine ⟨connF2 tid tii true (connF1 sid soi true m),
        List.mem_map_of_mem _ hm, ?_, ?_⟩
      · rw [connF_id]; exact h1
      · rw [connF_outputPins_length]; exact h2
    · rcases List.mem_singleton.mp hc with rfl
      refine ⟨connF2 tid tii true (connF1 sid soi true s),
        List.mem_map_of_mem _ hsmem, ?_, ?_⟩
      · rw [connF_id]; exact hsid
      · rw [connF_outputPins_length]; exact hso
  · intro c hc
    rcases List.mem_append.mp hc with hc | hc
    · rcases W.tgtValid c hc with ⟨m, hm, h1, h2⟩
      refine ⟨connF2 tid tii true (connF1 sid soi true m),
        List.mem_map_of_mem _ hm, ?_, ?_⟩
      · rw [connF_id]; exact h1
      · rw [connF_inputPins_length]; exact h2
    · rcases List.mem_singleton.mp hc with rfl
      refine ⟨connF2 tid tii true (connF1 sid soi true t),
        List.mem_map_of_mem _ htmem, ?_, ?_⟩
      · rw [connF_id]; exact htid
      · rw [connF_inputPins_length]; exact hti
  · refine List.pairwise_append.mpr ⟨W.tgtUnique, ?_, ?_⟩
    · simp
    · intro a ha b hb
      rcases List.mem_singleton.mp hb with rfl
      exact hdup a ha
  · intro m' hm' i p hp
    rcases List.mem_map.mp hm' with ⟨m, hm, rfl⟩
    rw [connF_inputPins] at hp
    rw [connF_id]
    by_cases hmt : m.id = tid
    · rw [if_pos hmt, setPinConnected_get?] at hp
      rcases Option.map_eq_some'.mp hp with ⟨q, hq, hpq⟩
      by_cases hi : i = tii
      · rw [if_pos hi] at hpq
        subst hpq
        constructor
        · intro _
          exact ⟨⟨sid, soi, tid, tii⟩,
            List.mem_append_right _ (List.mem_singleton.mpr rfl),
            hmt.symm, hi.symm⟩
        · intro _; rfl
      · rw [if_neg hi] at hpq
        subst hpq
        rw [W.inFlag m hm i q hq]
        constructor
        · rintro ⟨c, hc, h1, h2⟩
          exact ⟨c, List.mem_append_left _ hc, h1, h2⟩
        · rintro ⟨c, hc, h1, h2⟩
          rcases List.mem_append.mp hc with hc | hc
          · exact ⟨c, hc, h1, h2⟩
          · rcases List.mem_singleton.mp hc with rfl
            exact absurd h2.symm hi
    · rw [if_neg hmt] at hp
      rw [W.inFlag m hm i p hp]
      constructor
      · rintro ⟨c, hc, h1, h2⟩
        exact ⟨c, List.mem_append_left _ hc, h1, h2⟩
      · rintro ⟨c, hc, h1, h2⟩
        rcases List.mem_append.mp hc with hc | hc
        · exact ⟨c, hc, h1, h2⟩
        · rcases List.mem_singleton.mp hc with rfl
          exact absurd h1.symm hmt
  · intro m' hm' i p hp htrue
    rcases List.mem_map.mp hm' with ⟨m, hm, rfl⟩
    rw [connF_outputPins] at hp
    rw [connF_id]
    by_cases hms : m.id = sid
    · rw [if_pos hms, setPinConnected_get?] at hp
      rcases Option.map_eq_some'.mp hp with ⟨q, hq, hpq⟩
      by_cases hi : i = soi
      · exact ⟨⟨sid, soi, tid, tii⟩,
          List.mem_append_right _ (List.mem_singleton.mpr rfl),
          hms.symm, hi.symm⟩
      · rw [if_neg hi] at hpq
        subst hpq
        rcases W.outFlag m hm i q hq htrue with ⟨c, hc, h1, h2⟩
        exact ⟨c, List.mem_append_left _ hc, h1, h2⟩
    · rw [if_neg hms] at hp
      rcases W.outFlag m hm i p hp htrue with ⟨c, hc, h1, h2⟩
      exact ⟨c, List.mem_append_left _ hc, h1, h2⟩

/-- `addConnection` preserves the invariant. -/
theorem GraphWF.addConn_pres {g : ShaderGraph} (W : GraphWF g)
    (sid soi tid tii : Nat) :
    GraphWF (addConnection g sid soi tid tii).2 := by
  unfold ElementalRenderer.addConnection
  cases hs : getNodeById g sid with
  | none => exact W
  | some s =>
    cases ht : getNodeById g tid with
    | none => exact W
    | some t =>
      dsimp only
      by_cases hidx : soi < s.outputPins.length ∧ tii < t.inputPins.length
      · rw [if_pos hidx]
        by_cases hdup : g.connections.any
            (fun c => c.targetId = tid ∧ c.targetInputIndex = tii) = true
        · rw [if_pos hdup]; exact W
        · rw [if_neg hdup]
          have hd : ∀ c ∈ g.connections,
              ¬(c.targetId = tid ∧ c.targetInputIndex = tii) := by
            intro c hc hmatch
            exact hdup (List.any_eq_true.mpr ⟨c, hc, decide_eq_true hmatch⟩)
          exact W.addConn_success hs ht hidx.1 hidx.2 hd
      · rw [if_neg hidx]; exact W

/-- Target-input uniqueness gives uniqueness of the matching connection. -/
theorem unique_target_match {l : List NodeConnection}
    (hu : l.Pairwise (fun c c' =>
      ¬(c.targetId = c'.targetId ∧ c.targetInputIndex = c'.targetInputIndex)))
    {tid tii : Nat} {a b : NodeConnection} (ha : a ∈ l) (hb : b ∈ l)
    (hma : a.targetId = tid ∧ a.targetInputIndex = tii)
    (hmb : b.targetId = tid ∧ b.targetInputIndex = tii) : a = b := by
  by_contra hne
  have hsymm : Symmetric (fun c c' : NodeConnection =>
      ¬(c.targetId = c'.targetId ∧
        c.targetInputIndex = c'.targetInputIndex)) := by
    intro x y hxy hcontra
    exact hxy ⟨hcontra.1.symm, hcontra.2.symm⟩
  exact hu.forall hsymm ha hb hne
    ⟨hma.1.trans hmb.1.symm, hma.2.trans hmb.2.symm⟩

/-- After erasing the (unique) connection into `(tid, tii)`, no connection
into `(tid, tii)` remains. -/
theorem eraseP_no_target_match {l : List NodeConnection}
    (hu : l.Pairwise (fun c c' =>
      ¬(c.targetId = c'.targetId ∧ c.targetInputIndex = c'.targetInputIndex)))
    (tid tii : Nat) :
    ∀ c' ∈ l.eraseP
      (fun c => c.targetId = tid ∧ c.targetInputIndex = tii),
      ¬(c'.targetId = tid ∧ c'.targetInputIndex = tii) := by
  induction l with
  | nil => simp
  | cons a rest ih =>
    intro c' hc'
    rcases List.pairwise_cons.mp hu with ⟨hrel, hurest⟩
    by_cases ha : (a.targetId = tid ∧ a.targetInputIndex = tii)
    · rw [List.eraseP_cons_of_pos
        (p := fun c : NodeConnection => decide (c.targetId = tid ∧ c.targetInputIndex = tii))
        (by simpa using ha)] at hc'
      intro hc'm
      exact hrel c' hc'
        ⟨ha.1.trans hc'm.1.symm, ha.2.trans hc'm.2.symm⟩
    · rw [List.eraseP_cons_of_neg
        (p := fun c : NodeConnection => decide (c.targetId = tid ∧ c.targetInputIndex = tii))
        (by simpa using ha)] at hc'
      rcases List.mem_cons.mp hc' with rfl | hc'
      · exact ha
      · exact ih hurest c' hc'

/-- The state produced by a successful `removeConnection`, explicitly. -/
theorem GraphWF.remConn_success {g : ShaderGraph} (W : GraphWF g)
    {tid tii : Nat} {c : NodeConnection}
    (hf : g.connections.find?
      (fun c' => c'.targetId = tid ∧ c'.targetInputIndex = tii) = some c) :
    GraphWF ⟨g.name,
      (g.nodes.map (connF1 c.sourceId c.sourceOutputIndex false)).map
        (connF2 c.targetId c.targetInputIndex false),
      g.connections.eraseP
        (fun c' => c'.targetId = tid ∧ c'.targetInputIndex = tii)⟩ := by
  have hcmem : c ∈ g.connections := List.mem_of_find?_eq_some hf
  have hcp : c.targetId = tid ∧ c.targetInputIndex = tii := by
    have h := List.find?_some hf
    simpa using h
  have hsub :=
    List.eraseP_sublist (p := fun c' =>
      decide (c'.targetId = tid ∧ c'.targetInputIndex = tii)) g.connections
  have hmm : (g.nodes.map (connF1 c.sourceId c.sourceOutputIndex false)).map
        (connF2 c.targetId c.targetInputIndex false)
      = g.nodes.map (fun n => connF2 c.targetId c.targetInputIndex false
          (connF1 c.sourceId c.sourceOutputIndex false n)) := by
    rw [List.map_map]; rfl
  rw [hmm]
  constructor
  · show ((g.nodes.map fun n => connF2 c.targetId c.targetInputIndex false
        (connF1 c.sourceId c.sourceOutputIndex false n)).map
      (fun n => n.id)).Nodup
    rw [List.map_map]
    have : ((fun n : ShaderNode => n.id) ∘
        fun n => connF2 c.targetId c.targetInputIndex false
          (connF1 c.sourceId c.sourceOutputIndex false n))
        = fun n : ShaderNode => n.id :=
      funext (connF_id c.sourceId c.sourceOutputIndex c.targetId
        c.targetInputIndex false false)
    rw [this]; exact W.idsNodup
  · intro c' hc'
    rcases W.srcValid c' (hsub.subset hc') with ⟨m, hm, h1, h2⟩
    refine ⟨connF2 c.targetId c.targetInputIndex false
      (connF1 c.sourceId c.sourceOutputIndex false m),
      List.mem_map_of_mem _ hm, ?_, ?_⟩
    · rw [connF_id]; exact h1
    · rw [connF_outputPins_length]; exact h2
  · intro c' hc'
    rcases W.tgtValid c' (hsub.subset hc') with ⟨m, hm, h1, h2⟩
    refine ⟨connF2 c.targetId c.targetInputIndex false
      (connF1 c.sourceId c.sourceOutputIndex false m),
      List.mem_map_of_mem _ hm, ?_, ?_⟩
    · rw [connF_id]; exact h1
    · rw [connF_inputPins_length]; exact h2
  · exact W.tgtUnique.sublist hsub
  · intro m' hm' i p hp
    rcases List.mem_map.mp hm' with ⟨m, hm, rfl⟩
    rw [connF_inputPins] at hp
    rw [connF_id]
    by_cases hmt : m.id = c.targetId
    · rw [if_pos hmt, setPinConnected_get?] at hp
      rcases Option.map_eq_some'.mp hp with ⟨q, hq, hpq⟩
      by_cases hi : i = c.targetInputIndex
      · rw [if_pos hi] at hpq
        subst hpq
        constructor
        · intro hfalse; cases hfalse
        · rintro ⟨c'', hc'', h1, h2⟩
          exact absurd ⟨h1.trans (hmt.trans hcp.1),
            h2.trans (hi.trans hcp.2)⟩
            (eraseP_no_target_match W.tgtUnique tid tii c'' hc'')
      · rw [if_neg hi] at hpq
        subst hpq
        rw [W.inFlag m hm i q hq]
        constructor
        · rintro ⟨c'', hc'', h1, h2⟩
          refine ⟨c'', ?_, h1, h2⟩
          rw [List.mem_eraseP_of_neg]
          · exact hc''
          · simp only [decide_eq_true_eq]
            rintro ⟨hx, hy⟩
            exact hi ((h2.symm.trans hy).trans hcp.2.symm ▸ rfl)
        · rintro ⟨c'', hc'', h1, h2⟩
          exact ⟨c'', hsub.subset hc'', h1, h2⟩
    · rw [if_neg hmt] at hp
      rw [W.inFlag m hm i p hp]
      constructor
      · rintro ⟨c'', hc'', h1, h2⟩
        refine ⟨c'', ?_, h1, h2⟩
        rw [List.mem_eraseP_of_neg]
        · exact hc''
        · simp only [decide_eq_true_eq]
          rintro ⟨hx, hy⟩
          exact hmt ((h1.symm.trans hx).trans hcp.1.symm ▸ rfl)
      · rintro ⟨c'', hc'', h1, h2⟩
        exact ⟨c'', hsub.subset hc'', h1, h2⟩
  · intro m' hm' i p hp htrue
    rcases List.mem_map.mp hm' with ⟨m, hm, rfl⟩
    rw [connF_outputPins] at hp
    rw [connF_id]
    by_cases hms : m.id = c.sourceId
    · rw [if_pos hms, setPinConnected_get?] at hp
      rcases Option.map_eq_some'.mp hp with ⟨q, hq, hpq⟩
      by_cases hi : i = c.sourceOutputIndex
      · rw [if_pos hi] at hpq
        subst hpq
        cases htrue
      · rw [if_neg hi] at hpq
        subst hpq
        rcases W.outFlag m hm i q hq htrue with ⟨c'', hc'', h1, h2⟩
        refine ⟨c'', ?_, h1, h2⟩
        rw [List.mem_eraseP_of_neg]
        · exact hc''
        · simp only [decide_eq_true_eq]
          intro hmatch
          have : c'' = c := unique_target_match W.tgtUnique hc'' hcmem
            hmatch hcp
          subst this
          exact hi h2.symm
    · rw [if_neg hms] at hp
      rcases W.outFlag m hm i p hp htrue with ⟨c'', hc'', h1, h2⟩
      refine ⟨c'', ?_, h1, h2⟩
      rw [List.mem_eraseP_of_neg]
      · exact hc''
      · simp only [decide_eq_true_eq]
        intro hmatch
        have : c'' = c := unique_target_match W.tgtUnique hc'' hcmem
          hmatch hcp
        subst this
        exact hms h1.symm

/-- `removeConnection` preserves the invariant. -/
theorem GraphWF.remConn_pres {g : ShaderGraph} (W : GraphWF g)
    (tid tii : Nat) :
    GraphWF (removeConnection g tid tii).2 := by
  unfold ElementalRenderer.removeConnection
  cases hf : g.connections.find?
      (fun c' => c'.targetId = tid ∧ c'.targetInputIndex = tii) with
  | none => exact W
  | some c =>
    dsimp only
    exact W.remConn_success hf

/-- Node lookup in a bare store (`std::find_if` by id). -/
def storeFind (store : List ShaderNode) (id : Nat) : Option ShaderNode :=
  store.find? (fun n => n.id = id)

/-- The input-pin flag seen through a bare store. -/
def storeInFlag (store : List ShaderNode) (id j : Nat) : Option Bool :=
  (storeFind store id).bind (fun n => n.inputPins[j]?.map
    (fun p => p.isConnected))

/-- The output-pin flag seen through a bare store. -/
def storeOutFlag (store : List ShaderNode) (id j : Nat) : Option Bool :=
  (storeFind store id).bind (fun n => n.outputPins[j]?.map
    (fun p => p.isConnected))

/-- The store-update half of `removeNodeById`'s connection loop, as a fold:
each removed connection resets the flag of its surviving endpoint pin. -/
def cascadeStore (nid : Nat) (conns : List NodeConnection)
    (store : List ShaderNode) : List ShaderNode :=
  conns.foldl (fun st c =>
    if c.sourceId = nid ∨ c.targetId = nid then
      if c.sourceId = nid then
        st.map (connF2 c.targetId c.targetInputIndex false)
      else
        st.map (connF1 c.sourceId c.sourceOutputIndex false)
    else st) store

theorem cascadeStore_cons (nid : Nat) (c : NodeConnection)
    (rest : List NodeConnection) (store : List ShaderNode) :
    cascadeStore nid (c :: rest) store =
      cascadeStore nid rest
        (if c.sourceId = nid ∨ c.targetId = nid then
          if c.sourceId = nid then
            store.map (connF2 c.targetId c.targetInputIndex false)
          else store.map (connF1 c.sourceId c.sourceOutputIndex false)
        else store) := rfl

theorem cascadeConns_eq (nid : Nat) :
    ∀ (conns : List NodeConnection) (store : List ShaderNode),
    cascadeConns nid conns store =
      (conns.filter (fun c => ¬(c.sourceId = nid ∨ c.targetId = nid)),
       cascadeStore nid conns store)
  | [], store => rfl
  | c :: rest, store => by
    by_cases h : c.sourceId = nid ∨ c.targetId = nid
    · have hfil : (c :: rest).filter
          (fun c => ¬(c.sourceId = nid ∨ c.targetId = nid))
          = rest.filter (fun c => ¬(c.sourceId = nid ∨ c.targetId = nid)) := by
        rw [List.filter_cons_of_neg]
        rcases h with h | h <;> simp [h]
      by_cases h1 : c.sourceId = nid
      · have step : cascadeConns nid (c :: rest) store
            = cascadeConns nid rest
              (store.map (connF2 c.targetId c.targetInputIndex false)) := by
          simp only [cascadeConns, if_pos h, if_pos h1]; rfl
        rw [step, cascadeConns_eq nid rest, cascadeStore_cons,
          if_pos h, if_pos h1, hfil]
      · have step : cascadeConns nid (c :: rest) store
            = cascadeConns nid rest
              (store.map (connF1 c.sourceId c.sourceOutputIndex false)) := by
          simp only [cascadeConns, if_pos h, if_neg h1]; rfl
        rw [step, cascadeConns_eq nid rest, cascadeStore_cons,
          if_pos h, if_neg h1, hfil]
    · have hfil : (c :: rest).filter
          (fun c => ¬(c.sourceId = nid ∨ c.targetId = nid))
          = c :: rest.filter
              (fun c => ¬(c.sourceId = nid ∨ c.targetId = nid)) := by
        rw [List.filter_cons_of_pos]
        simpa using h
      have step : cascadeConns nid (c :: rest) store
          = (c :: (cascadeConns nid rest store).1,
             (cascadeConns nid rest store).2) := by
        simp only [cascadeConns, if_neg h]
      rw [step, cascadeConns_eq nid rest, cascadeStore_cons, if_neg h, hfil]

/-- The cascade's store update is a pointwise transformation that preserves
ids and pin-list lengths. -/
theorem cascadeStore_eq_map (nid : Nat) :
    ∀ (conns : List NodeConnection) (store : List ShaderNode),
    ∃ F : ShaderNode → ShaderNode,
      cascadeStore nid conns store = store.map F ∧
      (∀ n, (F n).id = n.id) ∧
      (∀ n, (F n).inputPins.length = n.inputPins.length) ∧
      (∀ n, (F n).outputPins.length = n.outputPins.length)
  | [], store =>
    ⟨id, by simp [cascadeStore], fun _ => rfl, fun _ => rfl, fun _ => rfl⟩
  | c :: rest, store => by
    rw [cascadeStore_cons]
    by_cases h : c.sourceId = nid ∨ c.targetId = nid
    · by_cases h1 : c.sourceId = nid
      · rw [if_pos h, if_pos h1]
        obtain ⟨F, hF, hid, hin, hout⟩ := cascadeStore_eq_map nid rest
          (store.map (connF2 c.targetId c.targetInputIndex false))
        refine ⟨fun n => F (connF2 c.targetId c.targetInputIndex false n),
          ?_, ?_, ?_, ?_⟩
        · rw [hF, List.map_map]; rfl
        · intro n; rw [hid, connF2_id]
        · intro n; rw [hin, connF2_inputPins]
          split <;> simp [setPinConnected_length]
        · intro n; rw [hout, connF2_outputPins]
      · rw [if_pos h, if_neg h1]
        obtain ⟨F, hF, hid, hin, hout⟩ := cascadeStore_eq_map nid rest
          (store.map (connF1 c.sourceId c.sourceOutputIndex false))
        refine ⟨fun n => F (connF1 c.sourceId c.sourceOutputIndex false n),
          ?_, ?_, ?_, ?_⟩
        · rw [hF, List.map_map]; rfl
        · intro n; rw [hid, connF1_id]
        · intro n; rw [hin, connF1_inputPins]
        · intro n; rw [hout, connF1_outputPins]
          split <;> simp [setPinConnected_length]
    · rw [if_neg h]
      exact cascadeStore_eq_map nid rest store

theorem find?_id_of_mem {l : List ShaderNode}
    (hN : (l.map (fun n => n.id)).Nodup) {n : ShaderNode} (hm : n ∈ l) :
    l.find? (fun m => m.id = n.id) = some n := by
  induction l with
  | nil => cases hm
  | cons a rest ih =>
    rcases List.mem_cons.mp hm with rfl | hm
    · rw [List.find?_cons_of_pos]
      simp
    · have hne : ¬ a.id = n.id := by
        intro heq
        have : n.id ∈ rest.map (fun m => m.id) :=
          List.mem_map.mpr ⟨n, hm, rfl⟩
        rw [List.map_cons, List.nodup_cons] at hN
        exact hN.1 (heq ▸ this)
      rw [List.map_cons, List.nodup_cons] at hN
      rw [List.find?_cons_of_neg]
      · exact ih hN.2 hm
      · simpa using hne

theorem eraseP_id_nodup {l : List ShaderNode}
    (h : (l.map (fun n => n.id)).Nodup) (nid : Nat) :
    ∀ n ∈ l.eraseP (fun n => n.id = nid), n.id ≠ nid := by
  induction l with
  | nil => simp
  | cons a rest ih =>
    rw [List.map_cons, List.nodup_cons] at h
    intro n hn
    by_cases ha : a.id = nid
    · rw [List.eraseP_cons_of_pos
        (p := fun n : ShaderNode => decide (n.id = nid))
        (by simpa using ha)] at hn
      intro heq
      exact h.1 (ha ▸ heq ▸ List.mem_map.mpr ⟨n, hn, rfl⟩)
    · rw [List.eraseP_cons_of_neg
        (p := fun n : ShaderNode => decide (n.id = nid))
        (by simpa using ha)] at hn
      rcases List.mem_cons.mp hn with rfl | hn
      · exact ha
      · exact ih h.2 n hn

theorem map_connF2_inFlag (store : List ShaderNode) (tid tii id j : Nat) :
    storeInFlag (store.map (connF2 tid tii false)) id j =
      if tid = id ∧ tii = j
      then (storeInFlag store id j).map (fun _ => false)
      else storeInFlag store id j := by
  unfold storeInFlag storeFind
  rw [find?_map_id_preserved (connF2_id tid tii false)]
  cases hfind : store.find? (fun n => n.id = id) with
  | none => split <;> simp
  | some n =>
    have hnid : n.id = id := by
      have := List.find?_some hfind
      simpa using this
    simp only [Option.map_some', Option.some_bind]
    rw [connF2_inputPins]
    by_cases h1 : n.id = tid
    · rw [if_pos h1, setPinConnected_get?]
      by_cases h2 : j = tii
      · rw [if_pos (by constructor <;> omega : tid = id ∧ tii = j)]
        cases hp : n.inputPins[j]? <;> simp [hp, h2]
      · rw [if_neg (by intro hc; exact h2 hc.2.symm)]
        cases hp : n.inputPins[j]? <;> simp [hp, h2]
    · rw [if_neg h1, if_neg (by intro hc; exact h1 (hnid.trans hc.1.symm))]

theorem map_connF2_outFlag (store : List ShaderNode) (tid tii id j : Nat) :
    storeOutFlag (store.map (connF2 tid tii false)) id j
      = storeOutFlag store id j := by
  unfold storeOutFlag storeFind
  rw [find?_map_id_preserved (connF2_id tid tii false)]
  cases hfind : store.find? (fun n => n.id = id) with
  | none => simp
  | some n =>
    simp only [Option.map_some', Option.some_bind]
    rw [connF2_outputPins]

theorem map_connF1_inFlag (store : List ShaderNode) (sid soi id j : Nat) :
    storeInFlag (store.map (connF1 sid soi false)) id j
      = storeInFlag store id j := by
  unfold storeInFlag storeFind
  rw [find?_map_id_preserved (connF1_id sid soi false)]
  cases hfind : store.find? (fun n => n.id = id) with
  | none => simp
  | some n =>
    simp only [Option.map_some', Option.some_bind]
    rw [connF1_inputPins]

theorem map_connF1_outFlag (store : List ShaderNode) (sid soi id j : Nat) :
    storeOutFlag (store.map (connF1 sid soi false)) id j =
      if sid = id ∧ soi = j
      then (storeOutFlag store id j).map (fun _ => false)
      else storeOutFlag store id j := by
  unfold storeOutFlag storeFind
  rw [find?_map_id_preserved (connF1_id sid soi false)]
  cases hfind : store.find? (fun n => n.id = id) with
  | none => split <;> simp
  | some n =>
    have hnid : n.id = id := by
      have := List.find?_some hfind
      simpa using this
    simp only [Option.map_some', Option.some_bind]
    rw [connF1_outputPins]
    by_cases h1 : n.id = sid
    · rw [if_pos h1, setPinConnected_get?]
      by_cases h2 : j = soi
      · rw [if_pos (by constructor <;> omega : sid = id ∧ soi = j)]
        cases hp : n.outputPins[j]? <;> simp [hp, h2]
      · rw [if_neg (by intro hc; exact h2 hc.2.symm)]
        cases hp : n.outputPins[j]? <;> simp [hp, h2]
    · rw [if_neg h1, if_neg (by intro hc; exact h1 (hnid.trans hc.1.symm))]

/-- The input-pin flag of any node after the cascade: reset exactly when a
removed connection had the removed node as source and this pin as target. -/
theorem cascadeStore_inFlag (nid : Nat) :
    ∀ (conns : List NodeConnection) (store : List ShaderNode) (id j : Nat),
    storeInFlag (cascadeStore nid conns store) id j =
      if conns.any (fun c => c.sourceId = nid ∧
          c.targetId = id ∧ c.targetInputIndex = j)
      then (storeInFlag store id j).map (fun _ => false)
      else storeInFlag store id j
  | [], store, id, j => by simp [cascadeStore]
  | c :: rest, store, id, j => by
    rw [cascadeStore_cons]
    by_cases h : c.sourceId = nid ∨ c.targetId = nid
    · by_cases h1 : c.sourceId = nid
      · rw [if_pos h, if_pos h1, cascadeStore_inFlag nid rest,
          map_connF2_inFlag]
        by_cases hP : c.targetId = id ∧ c.targetInputIndex = j
        · rw [if_pos hP,
            if_pos (show ((c :: rest).any fun c => c.sourceId = nid ∧
              c.targetId = id ∧ c.targetInputIndex = j) = true from
              List.any_eq_true.mpr ⟨c, List.mem_cons_self c rest,
                decide_eq_true ⟨h1, hP⟩⟩)]
          split <;> cases hsf : storeInFlag store id j <;> simp
        · rw [if_neg hP]
          have hany : ((c :: rest).any fun c => c.sourceId = nid ∧
              c.targetId = id ∧ c.targetInputIndex = j)
              = (rest.any fun c => c.sourceId = nid ∧
                c.targetId = id ∧ c.targetInputIndex = j) := by
            rw [List.any_cons]
            have : ¬(c.sourceId = nid ∧ c.targetId = id ∧
                c.targetInputIndex = j) := fun hc => hP hc.2
            simp [this]
          rw [hany]
      · rw [if_pos h, if_neg h1, cascadeStore_inFlag nid rest,
          map_connF1_inFlag]
        have hany : ((c :: rest).any fun c => c.sourceId = nid ∧
            c.targetId = id ∧ c.targetInputIndex = j)
            = (rest.any fun c => c.sourceId = nid ∧
              c.targetId = id ∧ c.targetInputIndex = j) := by
          rw [List.any_cons]
          have : ¬(c.sourceId = nid ∧ c.targetId = id ∧
              c.targetInputIndex = j) := fun hc => h1 hc.1
          simp [this]
        rw [hany]
    · rw [if_neg h, cascadeStore_inFlag nid rest]
      have hany : ((c :: rest).any fun c => c.sourceId = nid ∧
          c.targetId = id ∧ c.targetInputIndex = j)
          = (rest.any fun c => c.sourceId = nid ∧
            c.targetId = id ∧ c.targetInputIndex = j) := by
        rw [List.any_cons]
        have : ¬(c.sourceId = nid ∧ c.targetId = id ∧
            c.targetInputIndex = j) := fun hc => h (Or.inl hc.1)
        simp [this]
      rw [hany]

/-- The output-pin flag of a surviving node (`id ≠ nid`) after the cascade:
reset exactly when a removed connection had this pin as source and the
removed node as target. -/
theorem cascadeStore_outFlag (nid : Nat) {id : Nat} (hid : id ≠ nid) :
    ∀ (conns : List NodeConnection) (store : List ShaderNode) (j : Nat),
    storeOutFlag (cascadeStore nid conns store) id j =
      if conns.any (fun c => (c.sourceId = id ∧ c.sourceOutputIndex = j) ∧
          c.targetId = nid)
      then (storeOutFlag store id j).map (fun _ => false)
      else storeOutFlag store id j
  | [], store, j => by simp [cascadeStore]
  | c :: rest, store, j => by
    rw [cascadeStore_cons]
    by_cases h : c.sourceId = nid ∨ c.targetId = nid
    · by_cases h1 : c.sourceId = nid
      · rw [if_pos h, if_pos h1, cascadeStore_outFlag nid hid rest,
          map_connF2_outFlag]
        have hany : ((c :: rest).any fun c =>
            (c.sourceId = id ∧ c.sourceOutputIndex = j) ∧ c.targetId = nid)
            = (rest.any fun c =>
              (c.sourceId = id ∧ c.sourceOutputIndex = j) ∧
                c.targetId = nid) := by
          rw [List.any_cons]
          have : ¬((c.sourceId = id ∧ c.sourceOutputIndex = j) ∧
              c.targetId = nid) := fun hc => hid (hc.1.1.symm.trans h1)
          simp [this]
        rw [hany]
      · have h2 : c.targetId = nid := h.resolve_left h1
        rw [if_pos h, if_neg h1, cascadeStore_outFlag nid hid rest,
          map_connF1_outFlag]
        by_cases hP : c.sourceId = id ∧ c.sourceOutputIndex = j
        · rw [if_pos hP,
            if_pos (show ((c :: rest).any fun c =>
              (c.sourceId = id ∧ c.sourceOutputIndex = j) ∧
                c.targetId = nid) = true from
              List.any_eq_true.mpr ⟨c, List.mem_cons_self c rest,
                decide_eq_true ⟨hP, h2⟩⟩)]
          split <;> cases hsf : storeOutFlag store id j <;> simp
        · rw [if_neg hP]
          have hany : ((c :: rest).any fun c =>
              (c.sourceId = id ∧ c.sourceOutputIndex = j) ∧
                c.targetId = nid)
              = (rest.any fun c =>
                (c.sourceId = id ∧ c.sourceOutputIndex = j) ∧
                  c.targetId = nid) := by
            rw [List.any_cons]
            have : ¬((c.sourceId = id ∧ c.sourceOutputIndex = j) ∧
                c.targetId = nid) := fun hc => hP hc.1
            simp [this]
          rw [hany]
    · rw [if_neg h, cascadeStore_outFlag nid hid rest]
      have hany : ((c :: rest).any fun c =>
          (c.sourceId = id ∧ c.sourceOutputIndex = j) ∧ c.targetId = nid)
          = (rest.any fun c =>
            (c.sourceId = id ∧ c.sourceOutputIndex = j) ∧
              c.targetId = nid) := by
        rw [List.any_cons]
        have : ¬((c.sourceId = id ∧ c.sourceOutputIndex = j) ∧
            c.targetId = nid) := fun hc => h (Or.inr hc.2)
        simp [this]
      rw [hany]

/-- The state after `removeNodeById`'s cascade and node erasure keeps the
invariant, for any id. -/
theorem GraphWF.remNode_state {g : ShaderGraph} (W : GraphWF g) (nid : Nat) :
    GraphWF ⟨g.name,
      (cascadeStore nid g.connections g.nodes).eraseP
        (fun n => n.id = nid),
      g.connections.filter
        (fun c => ¬(c.sourceId = nid ∨ c.targetId = nid))⟩ := by
  obtain ⟨F, hF, hFid, hFin, hFout⟩ :=
    cascadeStore_eq_map nid g.connections g.nodes
  have hCSids : (cascadeStore nid g.connections g.nodes).map
      (fun n => n.id) = g.nodes.map (fun n => n.id) := by
    rw [hF, List.map_map]
    have : ((fun n : ShaderNode => n.id) ∘ F)
        = fun n : ShaderNode => n.id := funext hFid
    rw [this]
  have hCSnodup : ((cascadeStore nid g.connections g.nodes).map
      (fun n => n.id)).Nodup := by rw [hCSids]; exact W.idsNodup
  have hfiltmem : ∀ c ∈ g.connections.filter
      (fun c => ¬(c.sourceId = nid ∨ c.targetId = nid)),
      c ∈ g.connections ∧ c.sourceId ≠ nid ∧ c.targetId ≠ nid := by
    intro c hc
    have hmf := List.mem_filter.mp hc
    have hpred : ¬(c.sourceId = nid ∨ c.targetId = nid) := by
      simpa using hmf.2
    exact ⟨hmf.1, fun hx => hpred (Or.inl hx), fun hx => hpred (Or.inr hx)⟩
  constructor
  · have hsub : (((cascadeStore nid g.connections g.nodes).eraseP
        (fun n => n.id = nid)).map (fun n => n.id)).Sublist
        ((cascadeStore nid g.connections g.nodes).map (fun n => n.id)) :=
      (List.eraseP_sublist (cascadeStore nid g.connections g.nodes)).map
        (fun n : ShaderNode => n.id)
    exact hCSnodup.sublist hsub
  · intro c hc
    obtain ⟨hcmem, hcs, hct⟩ := hfiltmem c hc
    rcases W.srcValid c hcmem with ⟨m, hm, h1, h2⟩
    refine ⟨F m, ?_, ?_, ?_⟩
    · rw [List.mem_eraseP_of_neg (by simp [hFid m, h1, hcs])]
      rw [hF]; exact List.mem_map_of_mem F hm
    · rw [hFid]; exact h1
    · rw [hFout]; exact h2
  · intro c hc
    obtain ⟨hcmem, hcs, hct⟩ := hfiltmem c hc
    rcases W.tgtValid c hcmem with ⟨m, hm, h1, h2⟩
    refine ⟨F m, ?_, ?_, ?_⟩
    · rw [List.mem_eraseP_of_neg (by simp [hFid m, h1, hct])]
      rw [hF]; exact List.mem_map_of_mem F hm
    · rw [hFid]; exact h1
    · rw [hFin]; exact h2
  · exact W.tgtUnique.sublist (List.filter_sublist _)
  · intro n hn i p hp
    have hnnid : n.id ≠ nid := eraseP_id_nodup hCSnodup nid n hn
    have hnCS : n ∈ cascadeStore nid g.connections g.nodes :=
      (List.eraseP_sublist _).subset hn
    obtain ⟨m₀, hm₀, hnm₀⟩ := List.mem_map.mp (by rw [hF] at hnCS; exact hnCS)
    have hidm₀ : m₀.id = n.id := by rw [← hnm₀, hFid]
    have hfindCS : storeFind (cascadeStore nid g.connections g.nodes) n.id
        = some n := find?_id_of_mem hCSnodup hnCS
    have hflagCS : storeInFlag (cascadeStore nid g.connections g.nodes)
        n.id i = some p.isConnected := by
      unfold storeInFlag
      rw [hfindCS, Option.some_bind, hp, Option.map_some']
    have hfind₀ : storeFind g.nodes n.id = some m₀ := by
      unfold storeFind
      rw [← hidm₀]
      exact find?_id_of_mem W.idsNodup hm₀
    have hplen : i < m₀.inputPins.length := by
      have h1 : i < n.inputPins.length := by
        by_contra hcon
        rw [List.getElem?_eq_none (Nat.le_of_not_lt hcon)] at hp
        cases hp
      have h2 : n.inputPins.length = m₀.inputPins.length := by
        rw [← hnm₀, hFin]
      exact h2 ▸ h1
    obtain ⟨q, hq⟩ : ∃ q, m₀.inputPins[i]? = some q := by
      rcases hx : m₀.inputPins[i]? with - | q
      · rw [List.getElem?_eq_none_iff] at hx; omega
      · exact ⟨q, rfl⟩
    have hflag₀ : storeInFlag g.nodes n.id i = some q.isConnected := by
      unfold storeInFlag
      rw [hfind₀, Option.some_bind, hq, Option.map_some']
    rw [cascadeStore_inFlag] at hflagCS
    by_cases hAny : (g.connections.any fun c => c.sourceId = nid ∧
        c.targetId = n.id ∧ c.targetInputIndex = i) = true
    · rw [if_pos hAny, hflag₀, Option.map_some'] at hflagCS
      have hpfalse : p.isConnected = false :=
        (Option.some.injEq _ _ ▸ hflagCS).symm
      rcases List.any_eq_true.mp hAny with ⟨c, hcmem, hcP⟩
      have hcP' : c.sourceId = nid ∧ c.targetId = n.id ∧
          c.targetInputIndex = i := by simpa using hcP
      constructor
      · intro ht; rw [hpfalse] at ht; cases ht
      · rintro ⟨c', hc', h1, h2⟩
        obtain ⟨hc'mem, hc's, hc't⟩ := hfiltmem c' hc'
        have : c' = c := unique_target_match W.tgtUnique hc'mem hcmem
          ⟨h1, h2⟩ ⟨hcP'.2.1, hcP'.2.2⟩
        exact absurd (this ▸ hcP'.1) hc's
    · rw [if_neg hAny, hflag₀] at hflagCS
      have hpq : p.isConnected = q.isConnected :=
        (Option.some.injEq _ _ ▸ hflagCS).symm
      rw [hpq, W.inFlag m₀ hm₀ i q hq]
      constructor
      · rintro ⟨c, hcmem, h1, h2⟩
        refine ⟨c, ?_, hidm₀ ▸ h1, h2⟩
        rw [List.mem_filter]
        refine ⟨hcmem, ?_⟩
        have hcs : c.sourceId ≠ nid := by
          intro hx
          exact hAny (List.any_eq_true.mpr ⟨c, hcmem,
            decide_eq_true ⟨hx, h1.trans hidm₀, h2⟩⟩)
        have hct : c.targetId ≠ nid := by
          intro hx
          exact hnnid (((h1.trans hidm₀).symm.trans hx) ▸ rfl)
        simp [hcs, hct]
      · rintro ⟨c, hc, h1, h2⟩
        obtain ⟨hcmem, -, -⟩ := hfiltmem c hc
        exact ⟨c, hcmem, hidm₀.symm ▸ h1, h2⟩
  · intro n hn i p hp htrue
    have hnnid : n.id ≠ nid := eraseP_id_nodup hCSnodup nid n hn
    have hnCS : n ∈ cascadeStore nid g.connections g.nodes :=
      (List.eraseP_sublist _).subset hn
    obtain ⟨m₀, hm₀, hnm₀⟩ := List.mem_map.mp (by rw [hF] at hnCS; exact hnCS)
    have hidm₀ : m₀.id = n.id := by rw [← hnm₀, hFid]
    have hfindCS : storeFind (cascadeStore nid g.connections g.nodes) n.id
        = some n := find?_id_of_mem hCSnodup hnCS
    have hflagCS : storeOutFlag (cascadeStore nid g.connections g.nodes)
        n.id i = some p.isConnected := by
      unfold storeOutFlag
      rw [hfindCS, Option.some_bind, hp, Option.map_some']
    have hfind₀ : storeFind g.nodes n.id = some m₀ := by
      unfold storeFind
      rw [← hidm₀]
      exact find?_id_of_mem W.idsNodup hm₀
    have hplen : i < m₀.outputPins.length := by
      have h1 : i < n.outputPins.length := by
        by_contra hcon
        rw [List.getElem?_eq_none (Nat.le_of_not_lt hcon)] at hp
        cases hp
      have h2 : n.outputPins.length = m₀.outputPins.length := by
        rw [← hnm₀, hFout]
      exact h2 ▸ h1
    obtain ⟨q, hq⟩ : ∃ q, m₀.outputPins[i]? = some q := by
      rcases hx : m₀.outputPins[i]? with - | q
      · rw [List.getElem?_eq_none_iff] at hx; omega
      · exact ⟨q, rfl⟩
    have hflag₀ : storeOutFlag g.nodes n.id i = some q.isConnected := by
      unfold storeOutFlag
      rw [hfind₀, Option.some_bind, hq, Option.map_some']
    rw [cascadeStore_outFlag nid hnnid] at hflagCS
    by_cases hAny : (g.connections.any fun c =>
        (c.sourceId = n.id ∧ c.sourceOutputIndex = i) ∧
          c.targetId = nid) = true
    · rw [if_pos hAny, hflag₀, Option.map_some'] at hflagCS
      have hpfalse : p.isConnected = false :=
        (Option.some.injEq _ _ ▸ hflagCS).symm
      rw [hpfalse] at htrue; cases htrue
    · rw [if_neg hAny, hflag₀] at hflagCS
      have hpq : p.isConnected = q.isConnected :=
        (Option.some.injEq _ _ ▸ hflagCS).symm
      rw [hpq] at htrue
      rcases W.outFlag m₀ hm₀ i q hq htrue with ⟨c, hcmem, h1, h2⟩
      refine ⟨c, ?_, hidm₀ ▸ h1, h2⟩
      rw [List.mem_filter]
      refine ⟨hcmem, ?_⟩
      have hcs : c.sourceId ≠ nid := by
        intro hx
        exact hnnid (((h1.trans hidm₀).symm.trans hx) ▸ rfl)
      have hct : c.targetId ≠ nid := by
        intro hx
        exact hAny (List.any_eq_true.mpr ⟨c, hcmem,
          decide_eq_true ⟨⟨h1.trans hidm₀, h2⟩, hx⟩⟩)
      simp [hcs, hct]

/-- `removeNodeById` preserves the invariant. -/
theorem GraphWF.remNode_pres {g : ShaderGraph} (W : GraphWF g) (nid : Nat) :
    GraphWF (removeNodeById g nid).2 := by
  unfold removeNodeById
  rw [cascadeConns_eq]
  dsimp only
  by_cases h : (cascadeStore nid g.connections g.nodes).any
      (fun n => n.id = nid) = true
  · rw [if_pos h]
    exact W.remNode_state nid
  · rw [if_neg h]
    have hnone : (cascadeStore nid g.connections g.nodes).eraseP
        (fun n => n.id = nid) = cascadeStore nid g.connections g.nodes := by
      apply List.eraseP_of_forall_not
      intro a ha
      simp only [decide_eq_true_eq]
      intro hx
      exact h (List.any_eq_true.mpr ⟨a, ha, decide_eq_true hx⟩)
    have := W.remNode_state nid
    rw [hnone] at this
    exact this

/-- Every state reachable through the public interface is well-formed. -/
theorem reachable_wf {g : ShaderGraph} (h : Reachable g) : GraphWF g := by
  induction h with
  | empty name =>
      constructor <;> simp
  | addN hreach hf ih => exact ih.addNode_pres hf
  | addC hreach ih => exact ih.addConn_pres _ _ _ _
  | remC hreach ih => exact ih.remConn_pres _ _
  | remN hreach ih => exact ih.remNode_pres _

theorem inputFlagAt_eq (g : ShaderGraph) (id i : Nat) :
    inputFlagAt g id i = storeInFlag g.nodes id i := rfl

theorem outputFlagAt_eq (g : ShaderGraph) (id i : Nat) :
    outputFlagAt g id i = storeOutFlag g.nodes id i := rfl

/-- Erasing the node with a different id does not change an id lookup. -/
theorem storeFind_eraseP_ne {nid id : Nat} (hne : id ≠ nid) :
    ∀ l : List ShaderNode,
    storeFind (l.eraseP (fun n => n.id = nid)) id = storeFind l id
  | [] => rfl
  | a :: rest => by
    by_cases ha : a.id = nid
    · rw [List.eraseP_cons_of_pos
        (p := fun n : ShaderNode => decide (n.id = nid)) (by simpa using ha)]
      unfold storeFind
      rw [List.find?_cons_of_neg]
      simp only [decide_eq_true_eq]
      intro hx
      exact hne (hx.symm.trans ha)
    · rw [List.eraseP_cons_of_neg
        (p := fun n : ShaderNode => decide (n.id = nid)) (by simpa using ha)]
      by_cases hai : a.id = id
      · unfold storeFind
        rw [List.find?_cons_of_pos _ (by simpa using hai),
          List.find?_cons_of_pos _ (by simpa using hai)]
      · unfold storeFind
        rw [List.find?_cons_of_neg _ (by simpa using hai),
          List.find?_cons_of_neg _ (by simpa using hai)]
        exact storeFind_eraseP_ne hne rest

/-- C5 (amended): over every state reachable through the public mutators,
an *input* pin's `isConnected` flag holds exactly when some connection in
the table targets it; for an *output* pin only the forward direction holds
— a set flag is backed by at least one outgoing connection — while the
converse fails (`removeConnection` resets the source pin's flag even when
other fan-out connections from the same pin remain; see the
counterexample). -/
theorem pin_flags_reachable (g : ShaderGraph) (h : Reachable g) :
    (∀ n ∈ g.nodes, ∀ i p, n.inputPins[i]? = some p →
      (p.isConnected = true ↔
        ∃ c ∈ g.connections, c.targetId = n.id ∧ c.targetInputIndex = i)) ∧
    (∀ n ∈ g.nodes, ∀ i p, n.outputPins[i]? = some p →
      p.isConnected = true →
        ∃ c ∈ g.connections, c.sourceId = n.id ∧ c.sourceOutputIndex = i) :=
  ⟨(reachable_wf h).inFlag, (reachable_wf h).outFlag⟩

/-- The fan-out fixture is reachable through the public interface. -/
theorem fanGraph_reachable : Reachable fanGraph :=
  Reachable.addC (Reachable.addC
    (Reachable.addN (Reachable.addN (Reachable.addN
      (Reachable.empty "fan") (by constructor <;> decide))
      (by constructor <;> decide)) (by constructor <;> decide)))

/-- Witness for the amended C5 theorem at the post-removal fan-out state. -/
theorem pin_flags_reachable_witness :
    (∀ n ∈ fanGraphAfter.nodes, ∀ i p, n.inputPins[i]? = some p →
      (p.isConnected = true ↔
        ∃ c ∈ fanGraphAfter.connections,
          c.targetId = n.id ∧ c.targetInputIndex = i)) ∧
    (∀ n ∈ fanGraphAfter.nodes, ∀ i p, n.outputPins[i]? = some p →
      p.isConnected = true →
        ∃ c ∈ fanGraphAfter.connections,
          c.sourceId = n.id ∧ c.sourceOutputIndex = i) :=
  pin_flags_reachable fanGraphAfter (Reachable.remC fanGraph_reachable)

/-- C6: every reachable state has at most one connection per
`(targetNode, targetInputIndex)` pair, and once a target input is
connected, any further `addConnection` into it returns `false` and leaves
the graph — in particular the existing connection — unaltered. -/
theorem input_pin_uniqueness (g : ShaderGraph) (h : Reachable g) :
    g.connections.Pairwise (fun c c' =>
      ¬(c.targetId = c'.targetId ∧
        c.targetInputIndex = c'.targetInputIndex)) ∧
    ∀ sid soi tid tii,
      (∃ c ∈ g.connections,
        c.targetId = tid ∧ c.targetInputIndex = tii) →
      addConnection g sid soi tid tii = (false, g) := by
  refine ⟨(reachable_wf h).tgtUnique, ?_⟩
  intro sid soi tid tii hex
  have hany : (g.connections.any
      (fun c => c.targetId = tid ∧ c.targetInputIndex = tii)) = true := by
    rcases hex with ⟨c, hc, h1, h2⟩
    exact List.any_eq_true.mpr ⟨c, hc, decide_eq_true ⟨h1, h2⟩⟩
  unfold ElementalRenderer.addConnection
  cases getNodeById g sid with
  | none => rfl
  | some s =>
    cases getNodeById g tid with
    | none => rfl
    | some t =>
      dsimp only
      by_cases hidx : soi < s.outputPins.length ∧ tii < t.inputPins.length
      · rw [if_pos hidx, if_pos hany]
      · rw [if_neg hidx]

/-- Witness for C6 at the fan-out fixture: its target input `(2, 0)` is
already connected. -/
theorem input_pin_uniqueness_witness :
    fanGraph.connections.Pairwise (fun c c' =>
      ¬(c.targetId = c'.targetId ∧
        c.targetInputIndex = c'.targetInputIndex)) ∧
    ∀ sid soi tid tii,
      (∃ c ∈ fanGraph.connections,
        c.targetId = tid ∧ c.targetInputIndex = tii) →
      addConnection fanGraph sid soi tid tii = (false, fanGraph) :=
  input_pin_uniqueness fanGraph fanGraph_reachable

/-- C7: on a reachable graph containing a node with id `nid`,
`removeNodeById` returns `true`, removes exactly the connections touching
that node (the rest survive, in order), leaves no connection or node with
that id, and resets `isConnected` on the surviving endpoint pin of every
removed connection. -/
theorem removeNodeById_cascade (g : ShaderGraph) (h : Reachable g)
    (nid : Nat) (hex : ∃ n ∈ g.nodes, n.id = nid) :
    (removeNodeById g nid).1 = true ∧
    (removeNodeById g nid).2.connections = g.connections.filter
      (fun c => ¬(c.sourceId = nid ∨ c.targetId = nid)) ∧
    (∀ c ∈ (removeNodeById g nid).2.connections,
      c.sourceId ≠ nid ∧ c.targetId ≠ nid) ∧
    (∀ m ∈ (removeNodeById g nid).2.nodes, m.id ≠ nid) ∧
    (∀ c ∈ g.connections, c.sourceId = nid → c.targetId ≠ nid →
      inputFlagAt (removeNodeById g nid).2 c.targetId c.targetInputIndex
        = some false) ∧
    (∀ c ∈ g.connections, c.targetId = nid → c.sourceId ≠ nid →
      outputFlagAt (removeNodeById g nid).2 c.sourceId c.sourceOutputIndex
        = some false) := by
  have W := reachable_wf h
  obtain ⟨F, hF, hFid, hFin, hFout⟩ :=
    cascadeStore_eq_map nid g.connections g.nodes
  have hCSids : (cascadeStore nid g.connections g.nodes).map
      (fun n => n.id) = g.nodes.map (fun n => n.id) := by
    rw [hF, List.map_map]
    have : ((fun n : ShaderNode => n.id) ∘ F)
        = fun n : ShaderNode => n.id := funext hFid
    rw [this]
  have hCSnodup : ((cascadeStore nid g.connections g.nodes).map
      (fun n => n.id)).Nodup := by rw [hCSids]; exact W.idsNodup
  have hany : ((cascadeStore nid g.connections g.nodes).any
      (fun n => n.id = nid)) = true := by
    rcases hex with ⟨n, hn, hnid⟩
    refine List.any_eq_true.mpr ⟨F n, ?_, decide_eq_true ?_⟩
    · rw [hF]; exact List.mem_map_of_mem F hn
    · rw [hFid]; exact hnid
  have hres : removeNodeById g nid = (true, ⟨g.name,
      (cascadeStore nid g.connections g.nodes).eraseP
        (fun m => m.id = nid),
      g.connections.filter
        (fun c => ¬(c.sourceId = nid ∨ c.targetId = nid))⟩) := by
    unfold removeNodeById
    rw [cascadeConns_eq]
    dsimp only
    rw [if_pos hany]
  rw [hres]
  refine ⟨rfl, rfl, ?_, ?_, ?_, ?_⟩
  · intro c hc
    have hmf := List.mem_filter.mp hc
    have hpred : ¬(c.sourceId = nid ∨ c.targetId = nid) := by
      simpa using hmf.2
    exact ⟨fun hx => hpred (Or.inl hx), fun hx => hpred (Or.inr hx)⟩
  · exact eraseP_id_nodup hCSnodup nid
  · intro c hc hs ht
    rw [inputFlagAt_eq]
    show storeInFlag ((cascadeStore nid g.connections g.nodes).eraseP
      (fun m => m.id = nid)) c.targetId c.targetInputIndex = some false
    unfold storeInFlag
    rw [storeFind_eraseP_ne ht]
    show storeInFlag (cascadeStore nid g.connections g.nodes)
      c.targetId c.targetInputIndex = some false
    rw [cascadeStore_inFlag]
    rw [if_pos (List.any_eq_true.mpr ⟨c, hc, decide_eq_true ⟨hs, rfl, rfl⟩⟩)]
    rcases W.tgtValid c hc with ⟨m, hm, h1, h2⟩
    have hfind : storeFind g.nodes c.targetId = some m := by
      unfold storeFind
      rw [← h1]
      exact find?_id_of_mem W.idsNodup hm
    obtain ⟨q, hq⟩ : ∃ q, m.inputPins[c.targetInputIndex]? = some q := by
      rcases hx : m.inputPins[c.targetInputIndex]? with - | q
      · rw [List.getElem?_eq_none_iff] at hx; omega
      · exact ⟨q, rfl⟩
    unfold storeInFlag
    rw [hfind, Option.some_bind, hq, Option.map_some', Option.map_some']
  · intro c hc ht hs
    rw [outputFlagAt_eq]
    show storeOutFlag ((cascadeStore nid g.connections g.nodes).eraseP
      (fun m => m.id = nid)) c.sourceId c.sourceOutputIndex = some false
    unfold storeOutFlag
    rw [storeFind_eraseP_ne hs]
    show storeOutFlag (cascadeStore nid g.connections g.nodes)
      c.sourceId c.sourceOutputIndex = some false
    rw [cascadeStore_outFlag nid hs]
    rw [if_pos (List.any_eq_true.mpr ⟨c, hc, decide_eq_true ⟨⟨rfl, rfl⟩, ht⟩⟩)]
    rcases W.srcValid c hc with ⟨m, hm, h1, h2⟩
    have hfind : storeFind g.nodes c.sourceId = some m := by
      unfold storeFind
      rw [← h1]
      exact find?_id_of_mem W.idsNodup hm
    obtain ⟨q, hq⟩ : ∃ q, m.outputPins[c.sourceOutputIndex]? = some q := by
      rcases hx : m.outputPins[c.sourceOutputIndex]? with - | q
      · rw [List.getElem?_eq_none_iff] at hx; omega
      · exact ⟨q, rfl⟩
    unfold storeOutFlag
    rw [hfind, Option.some_bind, hq, Option.map_some', Option.map_some']

/-- Witness for C7: removing the `Add` node (id 1) of the fan-out fixture,
which participates in both connections. -/
theorem removeNodeById_cascade_witness :
    (∃ n ∈ fanGraph.nodes, n.id = 1) ∧
    ((removeNodeById fanGraph 1).1 = true ∧
    (removeNodeById fanGraph 1).2.connections = fanGraph.connections.filter
      (fun c => ¬(c.sourceId = 1 ∨ c.targetId = 1)) ∧
    (∀ c ∈ (removeNodeById fanGraph 1).2.connections,
      c.sourceId ≠ 1 ∧ c.targetId ≠ 1) ∧
    (∀ m ∈ (removeNodeById fanGraph 1).2.nodes, m.id ≠ 1) ∧
    (∀ c ∈ fanGraph.connections, c.sourceId = 1 → c.targetId ≠ 1 →
      inputFlagAt (removeNodeById fanGraph 1).2 c.targetId
        c.targetInputIndex = some false) ∧
    (∀ c ∈ fanGraph.connections, c.targetId = 1 → c.sourceId ≠ 1 →
      outputFlagAt (removeNodeById fanGraph 1).2 c.sourceId
        c.sourceOutputIndex = some false)) :=
  ⟨by decide,
   removeNodeById_cascade fanGraph fanGraph_reachable 1 (by decide)⟩

/-! ## Correctness of the depth-first sort (`topologicalSortUtil`) -/

/-- Invariant carried by the DFS: `visited` and `result` hold the same
names, and `result` lists every dependency of a listed name strictly
earlier (so `result` read left to right is dependencies-first). -/
def SortOk (deps : String → List String) (v r : List String) : Prop :=
  (∀ x, x ∈ v ↔ x ∈ r) ∧
  (∀ x ∈ r, ∀ d ∈ deps x, d ∈ r ∧ r.indexOf d < r.indexOf x)

/-- All the facts a successful `sortUtil` call guarantees. -/
def UtilSpec (deps : String → List String) (fuel : Nat) : Prop :=
  ∀ node temp v r v' r',
    sortUtil deps fuel node temp (v, r) = some (v', r') →
    (∀ x ∈ v, x ∈ v') ∧ (∃ ext, r' = r ++ ext) ∧ node ∈ v' ∧
    (∀ x ∈ temp, x ∉ v → x ∉ v') ∧
    (SortOk deps v r → SortOk deps v' r')

theorem indexOf_append_self {a : String} :
    ∀ {l : List String}, a ∉ l → (l ++ [a]).indexOf a = l.length
  | [], _ => by simp [List.indexOf_cons_self]
  | b :: t, h => by
    have hba : b ≠ a := fun hx => h (hx ▸ List.mem_cons_self b t)
    rw [List.cons_append, List.indexOf_cons_ne _ hba,
      indexOf_append_self (fun hx => h (List.mem_cons_of_mem b hx))]
    rfl

theorem foldSpec {deps : String → List String} {fuel : Nat}
    (IH : UtilSpec deps fuel) :
    ∀ (l : List String) (temp v r v' r' : List String),
    l.foldlM (fun vr d => sortUtil deps fuel d temp vr) (v, r)
      = some (v', r') →
    (∀ x ∈ v, x ∈ v') ∧ (∃ ext, r' = r ++ ext) ∧ (∀ d ∈ l, d ∈ v') ∧
    (∀ x ∈ temp, x ∉ v → x ∉ v') ∧
    (SortOk deps v r → SortOk deps v' r')
  | [], temp, v, r, v', r' => by
    intro h
    rw [List.foldlM_nil] at h
    have h' : some (v, r) = some (v', r') := h
    obtain ⟨rfl, rfl⟩ : v = v' ∧ r = r' := by
      have := Option.some.injEq _ _ ▸ h'
      exact ⟨congrArg Prod.fst this, congrArg Prod.snd this⟩
    exact ⟨fun x hx => hx, ⟨[], (List.append_nil r).symm⟩,
      fun d hd => absurd hd (List.not_mem_nil d),
      fun x _ hxv => hxv, fun hOk => hOk⟩
  | d :: rest, temp, v, r, v', r' => by
    intro h
    rw [List.foldlM_cons] at h
    cases hd : sortUtil deps fuel d temp (v, r) with
    | none => rw [hd] at h; cases h
    | some vr₁ =>
      obtain ⟨v₁, r₁⟩ := vr₁
      rw [hd] at h
      obtain ⟨m1, ⟨ext₁, he₁⟩, dmem, t1, k1⟩ := IH d temp v r v₁ r₁ hd
      obtain ⟨m2, ⟨ext₂, he₂⟩, dall, t2, k2⟩ :=
        foldSpec IH rest temp v₁ r₁ v' r' h
      refine ⟨fun x hx => m2 x (m1 x hx),
        ⟨ext₁ ++ ext₂, by rw [he₂, he₁, List.append_assoc]⟩, ?_,
        fun x hx hxv => t2 x hx (t1 x hx hxv),
        fun hOk => k2 (k1 hOk)⟩
      intro d' hd'
      rcases List.mem_cons.mp hd' with rfl | hd'
      · exact m2 d' dmem
      · exact dall d' hd'

theorem utilSpec (deps : String → List String) :
    ∀ fuel, UtilSpec deps fuel
  | 0 => by
    intro node temp v r v' r' h
    cases h
  | fuel + 1 => by
    intro node temp v r v' r' h
    simp only [sortUtil] at h
    by_cases ht : node ∈ temp
    · rw [if_pos ht] at h; cases h
    · rw [if_neg ht] at h
      by_cases hv : node ∈ v
      · rw [if_pos hv] at h
        obtain ⟨rfl, rfl⟩ : v = v' ∧ r = r' := by
          have := Option.some.injEq _ _ ▸ h
          exact ⟨congrArg Prod.fst this, congrArg Prod.snd this⟩
        exact ⟨fun x hx => hx, ⟨[], (List.append_nil r).symm⟩, hv,
          fun x _ hxv => hxv, fun hOk => hOk⟩
      · rw [if_neg hv] at h
        cases hfold : (deps node).foldlM
            (fun vr d => sortUtil deps fuel d (node :: temp) vr)
            (v, r) with
        | none => rw [hfold] at h; cases h
        | some vr₁ =>
          obtain ⟨v₁, r₁⟩ := vr₁
          rw [hfold] at h
          obtain ⟨hv', hr'⟩ : node :: v₁ = v' ∧ r₁ ++ [node] = r' := by
            have := Option.some.injEq _ _ ▸ h
            exact ⟨congrArg Prod.fst this, congrArg Prod.snd this⟩
          subst hv'; subst hr'
          obtain ⟨m1, ⟨ext₁, he₁⟩, dall, t1, k1⟩ :=
            foldSpec (utilSpec deps fuel) (deps node) (node :: temp)
              v r v₁ r₁ hfold
          refine ⟨?_, ?_, ?_, ?_, ?_⟩
          · intro x hx; exact List.mem_cons_of_mem node (m1 x hx)
          · exact ⟨ext₁ ++ [node], by rw [he₁, List.append_assoc]⟩
          · exact List.mem_cons_self node v₁
          · intro x hx hxv
            have hxn : x ≠ node := fun hxeq => ht (hxeq ▸ hx)
            have hxv₁ : x ∉ v₁ :=
              t1 x (List.mem_cons_of_mem node hx) hxv
            intro hcon
            rcases List.mem_cons.mp hcon with rfl | hcon
            · exact hxn rfl
            · exact hxv₁ hcon
          · intro hOk
            have hOk₁ := k1 hOk
            have hnodev₁ : node ∉ v₁ :=
              t1 node (List.mem_cons_self node temp) hv
            have hnoder₁ : node ∉ r₁ :=
              fun hx => hnodev₁ ((hOk₁.1 node).mpr hx)
            constructor
            · intro x
              constructor
              · intro hx
                rcases List.mem_cons.mp hx with rfl | hx
                · exact List.mem_append_right r₁
                    (List.mem_singleton.mpr rfl)
                · exact List.mem_append_left _ ((hOk₁.1 x).mp hx)
              · intro hx
                rcases List.mem_append.mp hx with hx | hx
                · exact List.mem_cons_of_mem node ((hOk₁.1 x).mpr hx)
                · rcases List.mem_singleton.mp hx with rfl
                  exact List.mem_cons_self x v₁
            · intro x hx d hd
              rcases List.mem_append.mp hx with hx | hx
              · obtain ⟨hdr, hlt⟩ := hOk₁.2 x hx d hd
                refine ⟨List.mem_append_left _ hdr, ?_⟩
                rw [List.indexOf_append_of_mem hdr,
                  List.indexOf_append_of_mem hx]
                exact hlt
              · rcases List.mem_singleton.mp hx with rfl
                have hdr₁ : d ∈ r₁ := (hOk₁.1 d).mp (dall d hd)
                refine ⟨List.mem_append_left _ hdr₁, ?_⟩
                rw [List.indexOf_append_of_mem hdr₁,
                  indexOf_append_self hnoder₁]
                exact List.indexOf_lt_length.mpr hdr₁

theorem topoLoopSpec (deps : String → List String) (fuel : Nat) :
    ∀ (names : List String) (v r v' r' : List String),
    topoLoop deps fuel names (v, r) = some (v', r') →
    (∀ x ∈ v, x ∈ v') ∧ (∀ n ∈ names, n ∈ v') ∧
    (SortOk deps v r → SortOk deps v' r')
  | [], v, r, v', r' => by
    intro h
    simp only [topoLoop] at h
    obtain ⟨rfl, rfl⟩ : v = v' ∧ r = r' := by
      have := Option.some.injEq _ _ ▸ h
      exact ⟨congrArg Prod.fst this, congrArg Prod.snd this⟩
    exact ⟨fun x hx => hx, fun n hn => absurd hn (List.not_mem_nil n),
      fun hOk => hOk⟩
  | n :: rest, v, r, v', r' => by
    intro h
    simp only [topoLoop] at h
    by_cases hv : n ∈ v
    · rw [if_pos hv] at h
      obtain ⟨m, nall, k⟩ := topoLoopSpec deps fuel rest v r v' r' h
      refine ⟨m, ?_, k⟩
      intro x hx
      rcases List.mem_cons.mp hx with rfl | hx
      · exact m x hv
      · exact nall x hx
    · rw [if_neg hv] at h
      cases hsu : sortUtil deps fuel n [] (v, r) with
      | none => rw [hsu] at h; cases h
      | some vr₁ =>
        obtain ⟨v₁, r₁⟩ := vr₁
        rw [hsu] at h
        obtain ⟨m1, -, hn, -, k1⟩ := utilSpec deps fuel n [] v r v₁ r₁ hsu
        obtain ⟨m2, nall, k2⟩ := topoLoopSpec deps fuel rest v₁ r₁ v' r' h
        refine ⟨fun x hx => m2 x (m1 x hx), ?_, fun hOk => k2 (k1 hOk)⟩
        intro x hx
        rcases List.mem_cons.mp hx with rfl | hx
        · exact m2 x hn
        · exact nall x hx

/-- A dependencies-first result list admits no dependency cycle among its
members. -/
theorem sortOk_no_cycle {deps : String → List String} {r : List String}
    (hg : ∀ x ∈ r, ∀ d ∈ deps x, d ∈ r ∧ r.indexOf d < r.indexOf x)
    {a b : String}
    (h : Relation.TransGen (fun x y => y ∈ deps x) a b) :
    a ∈ r → b ∈ r ∧ r.indexOf b < r.indexOf a := by
  induction h with
  | single hd => exact fun ha => hg _ ha _ hd
  | tail hab hd ih =>
    intro ha
    obtain ⟨hb, hlt⟩ := ih ha
    obtain ⟨hc, hlt2⟩ := hg _ hb _ hd
    exact ⟨hc, hlt2.trans hlt⟩

/-- A cycle in the dependency map touching a listed name makes the whole
DFS loop fail, for any fuel. -/
theorem topoLoop_cycle_none {deps : String → List String} {fuel : Nat}
    {names : List String} {p : String} (hp : p ∈ names)
    (hcyc : Relation.TransGen (fun a b => b ∈ deps a) p p) :
    topoLoop deps fuel names ([], []) = none := by
  cases hres : topoLoop deps fuel names ([], []) with
  | none => rfl
  | some vr =>
    exfalso
    obtain ⟨v', r'⟩ := vr
    obtain ⟨-, nall, k⟩ := topoLoopSpec deps fuel names [] [] v' r' hres
    have hOk : SortOk deps v' r' := k ⟨by simp, by simp⟩
    have hpv : p ∈ r' := (hOk.1 p).mp (nall p hp)
    obtain ⟨-, hlt⟩ := sortOk_no_cycle hOk.2 hcyc hpv
    exact Nat.lt_irrefl _ hlt

/-- The inferred dependency relation of a render graph has a cycle. -/
def depCycle (g : RenderGraph) : Prop :=
  ∃ p ∈ g.passes.map (fun q => q.name),
    Relation.TransGen (fun a b => b ∈ inferDependencies g.passes a) p p

/-- On a cyclic dependency map, `buildDependencyGraph` returns `false`
with the dependency map recomputed and the cached order cleared. -/
theorem buildDependencyGraph_cycle {g : RenderGraph} {p : String}
    (hp : p ∈ g.passes.map (fun q => q.name))
    (hcyc : Relation.TransGen
      (fun a b => b ∈ inferDependencies g.passes a) p p) :
    g.buildDependencyGraph = (false,
      { g with dependencies := inferDependencies g.passes,
               sortedPasses := [] }) := by
  unfold RenderGraph.buildDependencyGraph RenderGraph.topologicalSort
  dsimp only
  rw [topoLoop_cycle_none hp hcyc]

/-- C3: whenever the inferred dependency relation has a cycle among the
pass names, `buildDependencyGraph` returns `false` and leaves
`sortedPasses` empty, and a subsequent `execute` invokes no pass
callback. -/
theorem cyclic_build_fails_and_execute_runs_nothing (g : RenderGraph)
    (h : depCycle g) :
    (g.buildDependencyGraph).1 = false ∧
    (g.buildDependencyGraph).2.sortedPasses = [] ∧
    (((g.buildDependencyGraph).2).execute).1 = [] := by
  obtain ⟨p, hp, hcyc⟩ := h
  have h1 := buildDependencyGraph_cycle hp hcyc
  refine ⟨by rw [h1], by rw [h1], ?_⟩
  rw [h1]
  unfold RenderGraph.execute
  rw [if_pos (by rfl)]
  have h2 : RenderGraph.buildDependencyGraph
      { g with dependencies := inferDependencies g.passes,
               sortedPasses := [] }
      = (false, { g with dependencies := inferDependencies g.passes,
                         sortedPasses := [] }) := by
    have := buildDependencyGraph_cycle
      (g := { g with dependencies := inferDependencies g.passes,
                     sortedPasses := [] }) (p := p) hp hcyc
    exact this
  rw [h2]

/-- Witness for C3: the spec's own cycle example — pass Z reads W and
writes Y, pass X reads Y and writes W. -/
theorem cyclic_build_fails_witness :
    depCycle (rgOf [cyclePassZ, cyclePassX]) ∧
    (((rgOf [cyclePassZ, cyclePassX]).buildDependencyGraph).1 = false ∧
     ((rgOf [cyclePassZ, cyclePassX]).buildDependencyGraph).2.sortedPasses
       = [] ∧
     ((((rgOf [cyclePassZ, cyclePassX]).buildDependencyGraph).2).execute).1
       = []) := by
  have h1 : "Z" ∈ inferDependencies
      (rgOf [cyclePassZ, cyclePassX]).passes "X" := by decide
  have h2 : "X" ∈ inferDependencies
      (rgOf [cyclePassZ, cyclePassX]).passes "Z" := by decide
  have hcyc : depCycle (rgOf [cyclePassZ, cyclePassX]) :=
    ⟨"X", by decide,
      Relation.TransGen.tail (Relation.TransGen.single h1) h2⟩
  exact ⟨hcyc, cyclic_build_fails_and_execute_runs_nothing _ hcyc⟩

/-- When `buildDependencyGraph` succeeds, the post-state is the input with
the recomputed dependency map and the resolved, reversed DFS result as the
cached order. -/
theorem build_success (g : RenderGraph)
    (hb : (g.buildDependencyGraph).1 = true) :
    ∃ v r, topoLoop (inferDependencies g.passes) (g.passes.length + 1)
        (g.passes.map (fun q => q.name)) ([], []) = some (v, r) ∧
      (g.buildDependencyGraph).2 = { g with
        dependencies := inferDependencies g.passes,
        sortedPasses := r.reverse.filterMap (passMapFind g.passMap) } := by
  unfold RenderGraph.buildDependencyGraph RenderGraph.topologicalSort at hb ⊢
  dsimp only at hb ⊢
  cases hres : topoLoop (inferDependencies g.passes) (g.passes.length + 1)
      (g.passes.map (fun q => q.name)) ([], []) with
  | none => rw [hres] at hb; cases hb
  | some vr =>
    obtain ⟨v, r⟩ := vr
    exact ⟨v, r, rfl, rfl⟩

theorem passMapFind_name {passes : List RenderPass} {pname : String}
    (h : pname ∈ passes.map (fun q => q.name)) :
    ∃ q, passMapFind (passes.map (fun q => (q.name, q))) pname = some q ∧
      q.name = pname := by
  induction passes with
  | nil => simp at h
  | cons a rest ih =>
    by_cases ha : a.name = pname
    · refine ⟨a, ?_, ha⟩
      unfold passMapFind
      rw [List.map_cons, List.find?_cons_of_pos _ (by simpa using ha)]
      rfl
    · have h' : pname ∈ rest.map (fun q => q.name) := by
        rcases List.mem_cons.mp (List.map_cons (fun q : RenderPass => q.name)
          a rest ▸ h) with hx | hx
        · exact absurd hx.symm ha
        · exact hx
      obtain ⟨q, hq, hqn⟩ := ih h'
      refine ⟨q, ?_, hqn⟩
      unfold passMapFind at hq ⊢
      rw [List.map_cons, List.find?_cons_of_neg _ (by simpa using ha)]
      exact hq

/-- C10: after a successful build with a non-empty order, `removePass`
only touches the pass list and the name lookup table — the cached
`sortedPasses` and `dependencies` are untouched — so a subsequent
`execute` (without rebuilding) invokes every callback of the stale sorted
list, including the removed pass's. -/
theorem removePass_stale_sorted_executes_removed (g : RenderGraph)
    (hsync : g.passMap = g.passes.map (fun q => (q.name, q)))
    (hb : (g.buildDependencyGraph).1 = true)
    (hne : (g.buildDependencyGraph).2.sortedPasses ≠ [])
    (pname : String)
    (hr : (((g.buildDependencyGraph).2).removePass pname).1 = true) :
    (((g.buildDependencyGraph).2).removePass pname).2.sortedPasses
      = (g.buildDependencyGraph).2.sortedPasses ∧
    (((g.buildDependencyGraph).2).removePass pname).2.dependencies
      = (g.buildDependencyGraph).2.dependencies ∧
    ((((g.buildDependencyGraph).2).removePass pname).2.execute).1
      = (g.buildDependencyGraph).2.sortedPasses.map (fun q => q.name) ∧
    pname ∈ ((((g.buildDependencyGraph).2).removePass pname).2.execute).1
      := by
  obtain ⟨v, r, hres, hg1⟩ := build_success g hb
  have hmap : (g.buildDependencyGraph).2.passMap = g.passMap := by
    rw [hg1]
  obtain ⟨e, hfind⟩ : ∃ e, (g.buildDependencyGraph).2.passMap.find?
      (fun x => x.1 = pname) = some e := by
    rcases hx : (g.buildDependencyGraph).2.passMap.find?
        (fun x => x.1 = pname) with - | e
    · exfalso
      unfold RenderGraph.removePass at hr
      rw [hx] at hr
      cases hr
    · exact ⟨e, hx⟩
  have hremove : ((g.buildDependencyGraph).2).removePass pname
      = (true, { (g.buildDependencyGraph).2 with
          passMap := (g.buildDependencyGraph).2.passMap.eraseP
            (fun x => x.1 = pname),
          passes := (g.buildDependencyGraph).2.passes.erase e.2 }) := by
    unfold RenderGraph.removePass
    rw [hfind]
  have hsorted : (((g.buildDependencyGraph).2).removePass pname).2.sortedPasses
      = (g.buildDependencyGraph).2.sortedPasses := by rw [hremove]
  have hdeps : (((g.buildDependencyGraph).2).removePass pname).2.dependencies
      = (g.buildDependencyGraph).2.dependencies := by rw [hremove]
  have hnotempty :
      ¬((((g.buildDependencyGraph).2).removePass pname).2.sortedPasses.isEmpty
        = true) := by
    rw [hsorted]
    intro hx
    exact hne (List.isEmpty_iff.mp hx)
  have hexec : ((((g.buildDependencyGraph).2).removePass pname).2.execute).1
      = (g.buildDependencyGraph).2.sortedPasses.map (fun q => q.name) := by
    unfold RenderGraph.execute
    rw [if_neg hnotempty]
    dsimp only
    rw [hsorted]
  refine ⟨hsorted, hdeps, hexec, ?_⟩
  rw [hexec]
  -- the removed pass's name is in the stale sorted order
  have hename : e.1 = pname := by
    have := List.find?_some hfind
    simpa using this
  have hemem : e ∈ g.passMap := by
    rw [← hmap]
    exact List.mem_of_find?_eq_some hfind
  have hpname : pname ∈ g.passes.map (fun q => q.name) := by
    rw [hsync] at hemem
    rcases List.mem_map.mp hemem with ⟨q, hq, hqe⟩
    have : q.name = pname := by rw [← hename, ← hqe]
    exact List.mem_map.mpr ⟨q, hq, this⟩
  obtain ⟨-, nall, k⟩ := topoLoopSpec (inferDependencies g.passes)
    (g.passes.length + 1) (g.passes.map (fun q => q.name)) [] [] v r hres
  have hOk : SortOk (inferDependencies g.passes) v r :=
    k ⟨by simp, by simp⟩
  have hpr : pname ∈ r := (hOk.1 pname).mp (nall pname hpname)
  obtain ⟨q, hq, hqn⟩ := passMapFind_name hpname
  have hq' : passMapFind g.passMap pname = some q := by rw [hsync]; exact hq
  have hqmem : q ∈ (g.buildDependencyGraph).2.sortedPasses := by
    rw [hg1]
    exact List.mem_filterMap.mpr ⟨pname, List.mem_reverse.mpr hpr, hq'⟩
  exact List.mem_map.mpr ⟨q, hqmem, hqn⟩

/-- Two independent passes used by the C10 witness. -/
def stalePass1 : RenderPass := ⟨"P1", [], []⟩

/-- Second pass of the C10 witness. -/
def stalePass2 : RenderPass := ⟨"P2", [], []⟩

/-- Witness for C10: build two independent passes, remove `P1`, execute —
the stale order still runs both callbacks, the removed `P1` included. -/
theorem removePass_stale_sorted_witness :
    ((rgOf [stalePass1, stalePass2]).passMap
      = (rgOf [stalePass1, stalePass2]).passes.map (fun q => (q.name, q)) ∧
     ((rgOf [stalePass1, stalePass2]).buildDependencyGraph).1 = true ∧
     ((rgOf [stalePass1, stalePass2]).buildDependencyGraph).2.sortedPasses
       ≠ [] ∧
     ((((rgOf [stalePass1, stalePass2]).buildDependencyGraph).2).removePass
       "P1").1 = true) ∧
    (((((rgOf [stalePass1, stalePass2]).buildDependencyGraph).2).removePass
        "P1").2.sortedPasses
      = ((rgOf [stalePass1, stalePass2]).buildDependencyGraph).2.sortedPasses ∧
     ((((rgOf [stalePass1, stalePass2]).buildDependencyGraph).2).removePass
        "P1").2.dependencies
      = ((rgOf [stalePass1, stalePass2]).buildDependencyGraph).2.dependencies ∧
     (((((rgOf [stalePass1, stalePass2]).buildDependencyGraph).2).removePass
        "P1").2.execute).1
      = ((rgOf [stalePass1,
          stalePass2]).buildDependencyGraph).2.sortedPasses.map
          (fun q => q.name) ∧
     "P1" ∈ (((((rgOf [stalePass1,
        stalePass2]).buildDependencyGraph).2).removePass "P1").2.execute).1)
    := by
  refine ⟨⟨by decide, by decide, by decide, by decide⟩, ?_⟩
  exact removePass_stale_sorted_executes_removed
    (rgOf [stalePass1, stalePass2]) (by decide) (by decide) (by decide)
    "P1" (by decide)

/-! ## Save/load round trip (C8)

`loadFromFile` rebuilds every saved node through the factory under a fresh
id from the process-wide counter, records old→new in `nodesMap`, then
replays each saved connection through `addConnection` with both endpoints
translated.  The characterizations below compute both phases in closed
form. -/

/-- A pin with its derived `isConnected` flag cleared. -/
def clearPinFlag (p : NodePin) : NodePin :=
  { p with isConnected := false }

/-- A node with every pin flag cleared: the factory baseline. -/
def clearFlags (n : ShaderNode) : ShaderNode :=
  { n with inputPins := n.inputPins.map clearPinFlag,
           outputPins := n.outputPins.map clearPinFlag }

/-- The node is, up to editor coordinates and pin flags, exactly what the
factory constructs for its kind — the shape of every node built through
`ShaderNodeFactory`. -/
def nodeShaped (n : ShaderNode) : Prop :=
  clearFlags n = { mkNodeOfKind n.kind n.id with
    position := n.position, size := n.size }

instance (n : ShaderNode) : Decidable (nodeShaped n) := by
  unfold nodeShaped; infer_instance

/-- The serializable identity of a node: everything but its pin lists. -/
def nodeDescr (n : ShaderNode) :
    Nat × String × String × (Int × Int) × (Int × Int) × NodeKind :=
  (n.id, n.name, n.category, n.position, n.size, n.kind)

/-- The node store the load loop constructs from a saved-node list when
every `addNode` call succeeds. -/
def mkLoadedNodes : List SavedNode → Nat → List ShaderNode
  | [], _ => []
  | sn :: rest, nid =>
      { mkNodeOfKind sn.kind nid with
          position := sn.position, size := sn.size }
        :: mkLoadedNodes rest (nid + 1)

/-- The id map the load loop builds: each old id paired with the fresh id
of its reconstruction. -/
def zipNewIds : List SavedNode → Nat → List (Nat × Nat)
  | [], _ => []
  | sn :: rest, nid => (sn.id, nid) :: zipNewIds rest (nid + 1)

/-- The descriptors the round trip must reproduce: the i-th original
node's serialized fields under the i-th fresh id. -/
def expectedDescrs : List ShaderNode → Nat →
    List (Nat × String × String × (Int × Int) × (Int × Int) × NodeKind)
  | [], _ => []
  | n :: rest, nid =>
      (nid, n.name, n.category, n.position, n.size, n.kind)
        :: expectedDescrs rest (nid + 1)

/-- The renumbering `loadFromFile` applies to node ids. -/
def relabelId (g : ShaderGraph) (startId : Nat) (id : Nat) : Nat :=
  startId + (g.nodes.map (fun n => n.id)).indexOf id

/-- A connection with both endpoints renumbered through the id map. -/
def relabelConn (m : List (Nat × Nat)) (c : NodeConnection) :
    NodeConnection :=
  ⟨(idMapGet m c.sourceId).getD 0, c.sourceOutputIndex,
   (idMapGet m c.targetId).getD 0, c.targetInputIndex⟩

/-- The pin-length signature of the node a given id resolves to. -/
def skelFind (store : List ShaderNode) (id : Nat) : Option (Nat × Nat) :=
  (store.find? (fun n => n.id = id)).map
    (fun n => (n.inputPins.length, n.outputPins.length))

theorem mkNodeOfKind_id (k : NodeKind) (i : Nat) :
    (mkNodeOfKind k i).id = i := by
  cases k <;> rfl

theorem mkNodeOfKind_kind (k : NodeKind) (i : Nat) :
    (mkNodeOfKind k i).kind = k := by
  cases k <;> rfl

theorem mkNodeOfKind_name_irrel (k : NodeKind) (i j : Nat) :
    (mkNodeOfKind k i).name = (mkNodeOfKind k j).name := by
  cases k <;> rfl

theorem mkNodeOfKind_category_irrel (k : NodeKind) (i j : Nat) :
    (mkNodeOfKind k i).category = (mkNodeOfKind k j).category := by
  cases k <;> rfl

theorem mkNodeOfKind_inputPins_irrel (k : NodeKind) (i j : Nat) :
    (mkNodeOfKind k i).inputPins = (mkNodeOfKind k j).inputPins := by
  cases k <;> rfl

theorem mkNodeOfKind_outputPins_irrel (k : NodeKind) (i j : Nat) :
    (mkNodeOfKind k i).outputPins = (mkNodeOfKind k j).outputPins := by
  cases k <;> rfl

theorem shaped_name {n : ShaderNode} (h : nodeShaped n) (i : Nat) :
    n.name = (mkNodeOfKind n.kind i).name := by
  have h0 : clearFlags n = { mkNodeOfKind n.kind n.id with
      position := n.position, size := n.size } := h
  have h1 := congrArg ShaderNode.name h0
  exact h1.trans (mkNodeOfKind_name_irrel n.kind n.id i)

theorem shaped_category {n : ShaderNode} (h : nodeShaped n) (i : Nat) :
    n.category = (mkNodeOfKind n.kind i).category := by
  have h0 : clearFlags n = { mkNodeOfKind n.kind n.id with
      position := n.position, size := n.size } := h
  have h1 := congrArg ShaderNode.category h0
  exact h1.trans (mkNodeOfKind_category_irrel n.kind n.id i)

theorem shaped_inLen {n : ShaderNode} (h : nodeShaped n) (i : Nat) :
    n.inputPins.length = (mkNodeOfKind n.kind i).inputPins.length := by
  have h0 : clearFlags n = { mkNodeOfKind n.kind n.id with
      position := n.position, size := n.size } := h
  have h1 : n.inputPins.map clearPinFlag
      = (mkNodeOfKind n.kind n.id).inputPins :=
    congrArg ShaderNode.inputPins h0
  have h2 := congrArg List.length h1
  rw [List.length_map] at h2
  exact h2.trans
    (congrArg List.length (mkNodeOfKind_inputPins_irrel n.kind n.id i))

theorem shaped_outLen {n : ShaderNode} (h : nodeShaped n) (i : Nat) :
    n.outputPins.length = (mkNodeOfKind n.kind i).outputPins.length := by
  have h0 : clearFlags n = { mkNodeOfKind n.kind n.id with
      position := n.position, size := n.size } := h
  have h1 : n.outputPins.map clearPinFlag
      = (mkNodeOfKind n.kind n.id).outputPins :=
    congrArg ShaderNode.outputPins h0
  have h2 := congrArg List.length h1
  rw [List.length_map] at h2
  exact h2.trans
    (congrArg List.length (mkNodeOfKind_outputPins_irrel n.kind n.id i))

/-- The node-creation loop, in closed form: with all current ids below the
counter and fresh map keys, every `addNode` succeeds, the store grows by
the factory reconstructions, and the id map by old-to-fresh pairs. -/
theorem loadNodesPhase_spec :
    ∀ (sns : List SavedNode) (g0 : ShaderGraph) (m : List (Nat × Nat))
      (nid : Nat),
    (∀ n ∈ g0.nodes, n.id < nid) →
    (∀ e ∈ m, ∀ sn ∈ sns, ¬ e.1 = sn.id) →
    (sns.map (fun sn => sn.id)).Nodup →
    loadNodesPhase sns g0 m nid =
      ({ g0 with nodes := g0.nodes ++ mkLoadedNodes sns nid },
       m ++ zipNewIds sns nid, nid + sns.length)
  | [], g0, m, nid, _, _, _ => by
      simp [loadNodesPhase, mkLoadedNodes, zipNewIds]
  | sn :: rest, g0, m, nid, hlt, hdisj, hnd => by
      have hndl : (sn.id :: rest.map (fun x => x.id)).Nodup := by
        simpa using hnd
      have hndc := List.nodup_cons.mp hndl
      have hnodeid : ({ mkNodeOfKind sn.kind nid with
          position := sn.position, size := sn.size } : ShaderNode).id = nid :=
        mkNodeOfKind_id sn.kind nid
      have hany : ¬ g0.nodes.any (fun x => x.id =
          ({ mkNodeOfKind sn.kind nid with
            position := sn.position, size := sn.size } : ShaderNode).id)
          = true := by
        intro hx
        rcases List.any_eq_true.mp hx with ⟨x, hxm, hxid⟩
        have hxe : x.id = _ := of_decide_eq_true hxid
        have := hlt x hxm
        rw [hxe, hnodeid] at this
        exact Nat.lt_irrefl _ this
      have haddN : (addNode g0 { mkNodeOfKind sn.kind nid with
          position := sn.position, size := sn.size }).2
          = { g0 with nodes := g0.nodes ++
              [{ mkNodeOfKind sn.kind nid with
                position := sn.position, size := sn.size }] } := by
        unfold ElementalRenderer.addNode
        rw [if_neg hany]
      have hmany : ¬ m.any (fun e => e.1 = sn.id) = true := by
        intro hx
        rcases List.any_eq_true.mp hx with ⟨e, hem, hek⟩
        exact hdisj e hem sn (List.mem_cons_self sn rest)
          (of_decide_eq_true hek)
      have hmap : idMapSet m sn.id nid = m ++ [(sn.id, nid)] := by
        unfold idMapSet
        rw [if_neg hmany]
      have h1 : ∀ n ∈ ({ g0 with nodes := g0.nodes ++
          [{ mkNodeOfKind sn.kind nid with
            position := sn.position, size := sn.size }] } :
            ShaderGraph).nodes, n.id < nid + 1 := by
        intro n hn
        rcases List.mem_append.mp hn with hn | hn
        · exact Nat.lt_succ_of_lt (hlt n hn)
        · rcases List.mem_singleton.mp hn with rfl
          rw [hnodeid]
          exact Nat.lt_succ_self nid
      have h2 : ∀ e ∈ m ++ [(sn.id, nid)], ∀ s' ∈ rest,
          ¬ e.1 = s'.id := by
        intro e he s' hs' hek
        rcases List.mem_append.mp he with he | he
        · exact hdisj e he s' (List.mem_cons_of_mem sn hs') hek
        · rcases List.mem_singleton.mp he with rfl
          have hsn : sn.id = s'.id := hek
          apply hndc.1
          rw [hsn]
          exact List.mem_map_of_mem (fun x => x.id) hs'
      have h3 : (rest.map (fun x => x.id)).Nodup := hndc.2
      have ih := loadNodesPhase_spec rest _ _ (nid + 1) h1 h2 h3
      rw [loadNodesPhase]
      rw [haddN, hmap, ih]
      refine congrArg₂ Prod.mk ?_ (congrArg₂ Prod.mk ?_ ?_)
      · show ({ g0 with nodes := (g0.nodes ++ _) ++ _ } : ShaderGraph) = _
        rw [List.append_assoc, List.singleton_append]
        rfl
      · rw [List.append_assoc, List.singleton_append]
        rfl
      · show nid + 1 + rest.length = nid + (sn :: rest).length
        simp only [List.length_cons]
        omega

/-- Lookup in the load loop's id map: an old id maps to `nid` plus its
position in the saved list. -/
theorem zipNewIds_get :
    ∀ (sns : List SavedNode) (nid : Nat) (key : Nat),
    (sns.map (fun sn => sn.id)).Nodup →
    key ∈ sns.map (fun sn => sn.id) →
    idMapGet (zipNewIds sns nid) key =
      some (nid + (sns.map (fun sn => sn.id)).indexOf key)
  | [], _, _, _, h => absurd h (List.not_mem_nil _)
  | sn :: rest, nid, key, hnd, hmem => by
      have hndl : (sn.id :: rest.map (fun x => x.id)).Nodup := by
        simpa using hnd
      have hndc := List.nodup_cons.mp hndl
      have hmem1 : key ∈ sn.id :: rest.map (fun x => x.id) := by
        simpa using hmem
      by_cases hk : sn.id = key
      · subst hk
        unfold idMapGet zipNewIds
        rw [List.find?_cons_of_pos _ (by simp)]
        simp [List.indexOf_cons_self]
      · have hmem' : key ∈ rest.map (fun sn => sn.id) := by
          rcases List.mem_cons.mp hmem1 with h | h
          · exact (hk (by omega)).elim
          · simpa using h
        have ih := zipNewIds_get rest (nid + 1) key hndc.2 hmem'
        unfold idMapGet zipNewIds
        unfold idMapGet at ih
        rw [List.find?_cons_of_neg _ (by simp [hk])]
        rw [ih]
        refine congrArg some ?_
        have : (sn.id :: rest.map (fun sn => sn.id)).indexOf key
            = ((rest.map (fun sn => sn.id)).indexOf key).succ :=
          List.indexOf_cons_ne _ hk
        simp only [List.map_cons]
        rw [this]
        omega

theorem expectedDescrs_length :
    ∀ (ns : List ShaderNode) (nid : Nat),
    (expectedDescrs ns nid).length = ns.length
  | [], _ => rfl
  | _ :: rest, nid => by
      simp [expectedDescrs, expectedDescrs_length rest (nid + 1)]

/-- The reconstructed store carries exactly the expected descriptors. -/
theorem mkLoadedNodes_descr :
    ∀ (ns : List ShaderNode) (nid : Nat),
    (∀ n ∈ ns, nodeShaped n) →
    (mkLoadedNodes (ns.map toSavedNode) nid).map nodeDescr
      = expectedDescrs ns nid
  | [], _, _ => rfl
  | n :: rest, nid, hsh => by
      have hh := hsh n (List.mem_cons_self n rest)
      have ih := mkLoadedNodes_descr rest (nid + 1)
        (fun x hx => hsh x (List.mem_cons_of_mem n hx))
      simp only [List.map_cons, mkLoadedNodes, expectedDescrs]
      refine congrArg₂ List.cons ?_ ih
      show ((mkNodeOfKind n.kind nid).id, (mkNodeOfKind n.kind nid).name,
        (mkNodeOfKind n.kind nid).category, n.position, n.size,
        (mkNodeOfKind n.kind nid).kind) = _
      rw [mkNodeOfKind_id, mkNodeOfKind_kind, ← shaped_name hh nid,
        ← shaped_category hh nid]

/-- Pin-length lookup in the reconstructed store, by position. -/
theorem mkLoadedNodes_skelFind :
    ∀ (sns : List SavedNode) (nid : Nat) (j : Nat) (hj : j < sns.length),
    skelFind (mkLoadedNodes sns nid) (nid + j) =
      some ((mkNodeOfKind (sns.get ⟨j, hj⟩).kind 0).inputPins.length,
            (mkNodeOfKind (sns.get ⟨j, hj⟩).kind 0).outputPins.length)
  | sn :: rest, nid, 0, hj => by
      unfold skelFind mkLoadedNodes
      rw [List.find?_cons_of_pos _ (by
        simp [mkNodeOfKind_id sn.kind nid])]
      show some ((mkNodeOfKind sn.kind nid).inputPins.length,
        (mkNodeOfKind sn.kind nid).outputPins.length) = _
      rw [congrArg List.length (mkNodeOfKind_inputPins_irrel sn.kind nid 0),
        congrArg List.length (mkNodeOfKind_outputPins_irrel sn.kind nid 0)]
      rfl
  | sn :: rest, nid, j + 1, hj => by
      have hj' : j < rest.length := by
        simpa using Nat.lt_of_succ_lt_succ hj
      have ih := mkLoadedNodes_skelFind rest (nid + 1) j hj'
      unfold skelFind mkLoadedNodes
      rw [List.find?_cons_of_neg _ (by
        simp [mkNodeOfKind_id sn.kind nid])]
      unfold skelFind at ih
      have harith : nid + 1 + j = nid + (j + 1) := by omega
      rw [harith] at ih
      exact ih

theorem connF1_descr (sid soi : Nat) (b : Bool) (n : ShaderNode) :
    nodeDescr (connF1 sid soi b n) = nodeDescr n := by
  unfold connF1
  split <;> rfl

theorem connF2_descr (tid tii : Nat) (b : Bool) (n : ShaderNode) :
    nodeDescr (connF2 tid tii b n) = nodeDescr n := by
  unfold connF2
  split <;> rfl

theorem connF1_inLen (sid soi : Nat) (b : Bool) (n : ShaderNode) :
    (connF1 sid soi b n).inputPins.length = n.inputPins.length := by
  rw [connF1_inputPins]

theorem connF1_outLen (sid soi : Nat) (b : Bool) (n : ShaderNode) :
    (connF1 sid soi b n).outputPins.length = n.outputPins.length := by
  rw [connF1_outputPins]
  split <;> simp [setPinConnected_length]

theorem connF2_inLen (tid tii : Nat) (b : Bool) (n : ShaderNode) :
    (connF2 tid tii b n).inputPins.length = n.inputPins.length := by
  rw [connF2_inputPins]
  split <;> simp [setPinConnected_length]

theorem connF2_outLen (tid tii : Nat) (b : Bool) (n : ShaderNode) :
    (connF2 tid tii b n).outputPins.length = n.outputPins.length := by
  rw [connF2_outputPins]

theorem descr_mapF {F : ShaderNode → ShaderNode}
    (hd : ∀ n, nodeDescr (F n) = nodeDescr n) (store : List ShaderNode) :
    (store.map F).map nodeDescr = store.map nodeDescr := by
  rw [List.map_map]
  exact List.map_congr_left (fun n _ => hd n)

theorem skelFind_mapF {F : ShaderNode → ShaderNode}
    (hid : ∀ n, (F n).id = n.id)
    (hin : ∀ n, (F n).inputPins.length = n.inputPins.length)
    (hout : ∀ n, (F n).outputPins.length = n.outputPins.length)
    (store : List ShaderNode) (id : Nat) :
    skelFind (store.map F) id = skelFind store id := by
  unfold skelFind
  rw [find?_map_id_preserved hid]
  cases store.find? (fun n => n.id = id) with
  | none => rfl
  | some n => simp [hin, hout]

/-- `addConnection` never changes any node's serialized fields. -/
theorem addConnection_nodes_descr (g : ShaderGraph) (a b c d : Nat) :
    (addConnection g a b c d).2.nodes.map nodeDescr
      = g.nodes.map nodeDescr := by
  unfold ElementalRenderer.addConnection
  cases getNodeById g a with
  | none => rfl
  | some s =>
    cases getNodeById g c with
    | none => rfl
    | some t =>
      dsimp only
      by_cases hidx : b < s.outputPins.length ∧ d < t.inputPins.length
      · rw [if_pos hidx]
        by_cases hdup : g.connections.any
            (fun cc => cc.targetId = c ∧ cc.targetInputIndex = d) = true
        · rw [if_pos hdup]
        · rw [if_neg hdup]
          show ((g.nodes.map (connF1 a b true)).map
            (connF2 c d true)).map nodeDescr = g.nodes.map nodeDescr
          rw [descr_mapF (connF2_descr c d true),
            descr_mapF (connF1_descr a b true)]
      · rw [if_neg hidx]

/-- `addConnection` never changes ids or pin counts. -/
theorem addConnection_skelFind (g : ShaderGraph) (a b c d id : Nat) :
    skelFind (addConnection g a b c d).2.nodes id
      = skelFind g.nodes id := by
  unfold ElementalRenderer.addConnection
  cases getNodeById g a with
  | none => rfl
  | some s =>
    cases getNodeById g c with
    | none => rfl
    | some t =>
      dsimp only
      by_cases hidx : b < s.outputPins.length ∧ d < t.inputPins.length
      · rw [if_pos hidx]
        by_cases hdup : g.connections.any
            (fun cc => cc.targetId = c ∧ cc.targetInputIndex = d) = true
        · rw [if_pos hdup]
        · rw [if_neg hdup]
          show skelFind ((g.nodes.map (connF1 a b true)).map
            (connF2 c d true)) id = skelFind g.nodes id
          rw [skelFind_mapF (connF2_id c d true) (connF2_inLen c d true)
            (connF2_outLen c d true),
            skelFind_mapF (connF1_id a b true) (connF1_inLen a b true)
            (connF1_outLen a b true)]
      · rw [if_neg hidx]

/-- A successful `addConnection` appends exactly the requested edge. -/
theorem addConnection_conns_eq {g : ShaderGraph} {sid soi tid tii : Nat}
    {s t : ShaderNode}
    (hs : getNodeById g sid = some s) (ht : getNodeById g tid = some t)
    (hso : soi < s.outputPins.length) (hti : tii < t.inputPins.length)
    (hdup : ¬ g.connections.any
      (fun c => c.targetId = tid ∧ c.targetInputIndex = tii) = true) :
    (addConnection g sid soi tid tii).2.connections
      = g.connections ++ [⟨sid, soi, tid, tii⟩] := by
  unfold ElementalRenderer.addConnection
  rw [hs, ht]
  dsimp only
  rw [if_pos ⟨hso, hti⟩, if_neg hdup]
  rfl

/-- The connection-replay loop never changes any node's serialized
fields. -/
theorem loadConnsPhase_nodes_descr :
    ∀ (cs : List NodeConnection) (m : List (Nat × Nat)) (G : ShaderGraph),
    (loadConnsPhase cs m G).nodes.map nodeDescr = G.nodes.map nodeDescr
  | [], _, _ => rfl
  | c :: rest, m, G => by
      rw [loadConnsPhase]
      cases idMapGet m c.sourceId with
      | none => exact loadConnsPhase_nodes_descr rest m G
      | some s =>
        cases idMapGet m c.targetId with
        | none => exact loadConnsPhase_nodes_descr rest m G
        | some t =>
          rw [loadConnsPhase_nodes_descr rest m _]
          exact addConnection_nodes_descr G s c.sourceOutputIndex t
            c.targetInputIndex

/-- The connection-replay loop in closed form: when every endpoint
resolves through the id map to a node with enough pins, and the translated
edges plus the existing ones are pairwise target-distinct, every
`addConnection` succeeds and the translated edges are appended in
order. -/
theorem loadConnsPhase_spec :
    ∀ (cs : List NodeConnection) (m : List (Nat × Nat)) (G : ShaderGraph),
    (∀ c ∈ cs, (idMapGet m c.sourceId).isSome = true ∧
      ∃ ls, skelFind G.nodes ((idMapGet m c.sourceId).getD 0) = some ls ∧
        c.sourceOutputIndex < ls.2) →
    (∀ c ∈ cs, (idMapGet m c.targetId).isSome = true ∧
      ∃ lt, skelFind G.nodes ((idMapGet m c.targetId).getD 0) = some lt ∧
        c.targetInputIndex < lt.1) →
    (G.connections ++ cs.map (relabelConn m)).Pairwise (fun c c' =>
      ¬(c.targetId = c'.targetId ∧
        c.targetInputIndex = c'.targetInputIndex)) →
    (loadConnsPhase cs m G).connections
      = G.connections ++ cs.map (relabelConn m)
  | [], _, G, _, _, _ => by simp [loadConnsPhase]
  | c :: rest, m, G, hsrc, htgt, hpw => by
      obtain ⟨hssome, ls, hls, hso⟩ := hsrc c (List.mem_cons_self c rest)
      obtain ⟨htsome, lt, hlt, hti⟩ := htgt c (List.mem_cons_self c rest)
      rcases Option.isSome_iff_exists.mp hssome with ⟨s, hs⟩
      rcases Option.isSome_iff_exists.mp htsome with ⟨t, ht⟩
      rw [hs] at hls
      rw [ht] at hlt
      simp only [Option.getD_some] at hls hlt
      rcases Option.map_eq_some'.mp hls with ⟨sn, hsn, hsls⟩
      rcases Option.map_eq_some'.mp hlt with ⟨tn, htn, htlt⟩
      have hsog : c.sourceOutputIndex < sn.outputPins.length := by
        have := congrArg Prod.snd hsls
        simp at this
        omega
      have htig : c.targetInputIndex < tn.inputPins.length := by
        have := congrArg Prod.fst htlt
        simp at this
        omega
      have hc0 : relabelConn m c
          = ⟨s, c.sourceOutputIndex, t, c.targetInputIndex⟩ := by
        unfold relabelConn
        rw [hs, ht]
        rfl
      have hpwparts := List.pairwise_append.mp hpw
      have hdup : ¬ G.connections.any (fun cc => cc.targetId = t ∧
          cc.targetInputIndex = c.targetInputIndex) = true := by
        intro hx
        rcases List.any_eq_true.mp hx with ⟨e, hem, hematch⟩
        have hrel := hpwparts.2.2 e hem (relabelConn m c)
          (List.mem_map_of_mem _ (List.mem_cons_self c rest))
        rw [hc0] at hrel
        exact hrel (of_decide_eq_true hematch)
      have hconns := addConnection_conns_eq hsn htn hsog htig hdup
      have hskel : ∀ x, skelFind (addConnection G s c.sourceOutputIndex t
          c.targetInputIndex).2.nodes x = skelFind G.nodes x :=
        fun x => addConnection_skelFind G s c.sourceOutputIndex t
          c.targetInputIndex x
      have ihsrc : ∀ c' ∈ rest, (idMapGet m c'.sourceId).isSome = true ∧
          ∃ ls', skelFind (addConnection G s c.sourceOutputIndex t
              c.targetInputIndex).2.nodes
              ((idMapGet m c'.sourceId).getD 0) = some ls' ∧
            c'.sourceOutputIndex < ls'.2 := by
        intro c' hc'
        obtain ⟨h1, ls', h2, h3⟩ :=
          hsrc c' (List.mem_cons_of_mem c hc')
        exact ⟨h1, ls', (hskel _).trans h2, h3⟩
      have ihtgt : ∀ c' ∈ rest, (idMapGet m c'.targetId).isSome = true ∧
          ∃ lt', skelFind (addConnection G s c.sourceOutputIndex t
              c.targetInputIndex).2.nodes
              ((idMapGet m c'.targetId).getD 0) = some lt' ∧
            c'.targetInputIndex < lt'.1 := by
        intro c' hc'
        obtain ⟨h1, lt', h2, h3⟩ :=
          htgt c' (List.mem_cons_of_mem c hc')
        exact ⟨h1, lt', (hskel _).trans h2, h3⟩
      have ihpw : ((addConnection G s c.sourceOutputIndex t
          c.targetInputIndex).2.connections
          ++ rest.map (relabelConn m)).Pairwise (fun c c' =>
          ¬(c.targetId = c'.targetId ∧
            c.targetInputIndex = c'.targetInputIndex)) := by
        rw [hconns]
        have : (G.connections ++
            [(⟨s, c.sourceOutputIndex, t, c.targetInputIndex⟩ :
              NodeConnection)]) ++ rest.map (relabelConn m)
            = G.connections ++
              ((⟨s, c.sourceOutputIndex, t, c.targetInputIndex⟩ :
                NodeConnection) :: rest.map (relabelConn m)) := by
          rw [List.append_assoc, List.singleton_append]
        rw [this]
        have hpw' := hpw
        rw [List.map_cons, hc0] at hpw'
        exact hpw'
      have ih := loadConnsPhase_spec rest m _ ihsrc ihtgt ihpw
      rw [loadConnsPhase]
      rw [hs, ht]
      dsimp only
      rw [ih, hconns, List.map_cons, hc0,
        List.append_assoc, List.singleton_append]

/-- C8: save/load round trip.  For every well-formed `ShaderGraph` whose
nodes are factory-shaped (as every node built through `ShaderNodeFactory`
is), saving and reloading the produced document yields a graph with the
same node count, the same connection count, the same per-node serialized
fields — name, category, position, size, and the `NodeKind` carrying the
type tag and type-specific parameters — in the same order under renumbered
ids `startId + i`, and the original connection topology transported along
the injective id renumbering `relabelId`. -/
theorem save_load_round_trip (g : ShaderGraph) (startId : Nat)
    (hnd : (g.nodes.map (fun n => n.id)).Nodup)
    (hsrc : ∀ c ∈ g.connections, ∃ n ∈ g.nodes,
      n.id = c.sourceId ∧ c.sourceOutputIndex < n.outputPins.length)
    (htgt : ∀ c ∈ g.connections, ∃ n ∈ g.nodes,
      n.id = c.targetId ∧ c.targetInputIndex < n.inputPins.length)
    (huniq : g.connections.Pairwise (fun c c' =>
      ¬(c.targetId = c'.targetId ∧
        c.targetInputIndex = c'.targetInputIndex)))
    (hshape : ∀ n ∈ g.nodes, nodeShaped n) :
    (loadDoc (saveDoc g) startId).nodes.length = g.nodes.length ∧
    (loadDoc (saveDoc g) startId).connections.length
      = g.connections.length ∧
    (loadDoc (saveDoc g) startId).nodes.map nodeDescr
      = expectedDescrs g.nodes startId ∧
    (loadDoc (saveDoc g) startId).connections
      = g.connections.map (fun c =>
        ⟨relabelId g startId c.sourceId, c.sourceOutputIndex,
         relabelId g startId c.targetId, c.targetInputIndex⟩) := by
  have hsid : (g.nodes.map toSavedNode).map (fun sn => sn.id)
      = g.nodes.map (fun n => n.id) := by
    rw [List.map_map]
    rfl
  have hnd' : ((g.nodes.map toSavedNode).map (fun sn => sn.id)).Nodup := by
    rw [hsid]
    exact hnd
  have hphase := loadNodesPhase_spec (g.nodes.map toSavedNode)
    ⟨g.name, [], []⟩ [] startId
    (fun n hn => absurd hn (List.not_mem_nil n))
    (fun e he => absurd he (List.not_mem_nil e)) hnd'
  have hld : loadDoc (saveDoc g) startId
      = loadConnsPhase g.connections
          (zipNewIds (g.nodes.map toSavedNode) startId)
          ⟨g.name, mkLoadedNodes (g.nodes.map toSavedNode) startId, []⟩ := by
    unfold loadDoc
    dsimp only [saveDoc]
    rw [hphase]
    rfl
  have hmget : ∀ id0, id0 ∈ g.nodes.map (fun n => n.id) →
      idMapGet (zipNewIds (g.nodes.map toSavedNode) startId) id0
        = some (startId + (g.nodes.map (fun n => n.id)).indexOf id0) := by
    intro id0 hid0
    have h := zipNewIds_get (g.nodes.map toSavedNode) startId id0 hnd'
      (by rw [hsid]; exact hid0)
    rw [hsid] at h
    exact h
  have hnodeAt : ∀ id0, id0 ∈ g.nodes.map (fun n => n.id) →
      ∃ n ∈ g.nodes, n.id = id0 ∧
        skelFind (mkLoadedNodes (g.nodes.map toSavedNode) startId)
            (startId + (g.nodes.map (fun n => n.id)).indexOf id0)
          = some ((mkNodeOfKind n.kind 0).inputPins.length,
                  (mkNodeOfKind n.kind 0).outputPins.length) := by
    intro id0 hid0
    have hjlt : (g.nodes.map (fun n => n.id)).indexOf id0
        < (g.nodes.map (fun n => n.id)).length :=
      List.indexOf_lt_length.mpr hid0
    have hjg : (g.nodes.map (fun n => n.id)).indexOf id0
        < g.nodes.length := by
      rw [List.length_map] at hjlt
      exact hjlt
    have hnid : (g.nodes.get ⟨(g.nodes.map (fun n => n.id)).indexOf id0,
        hjg⟩).id = id0 := by
      have h1 : (g.nodes.map (fun n => n.id)).get
          ⟨(g.nodes.map (fun n => n.id)).indexOf id0, hjlt⟩ = id0 :=
        List.indexOf_get hjlt
      rw [List.get_map] at h1
      exact h1
    have hjs : (g.nodes.map (fun n => n.id)).indexOf id0
        < (g.nodes.map toSavedNode).length := by
      rw [List.length_map]
      exact hjg
    have hsget : (g.nodes.map toSavedNode).get
        ⟨(g.nodes.map (fun n => n.id)).indexOf id0, hjs⟩
        = toSavedNode (g.nodes.get
            ⟨(g.nodes.map (fun n => n.id)).indexOf id0, hjg⟩) := by
      rw [List.get_map]
    have hsk := mkLoadedNodes_skelFind (g.nodes.map toSavedNode) startId
      ((g.nodes.map (fun n => n.id)).indexOf id0) hjs
    rw [hsget] at hsk
    refine ⟨g.nodes.get ⟨(g.nodes.map (fun n => n.id)).indexOf id0, hjg⟩,
      List.get_mem _ _ _, hnid, ?_⟩
    exact hsk
  have hs1 : ∀ c ∈ g.connections,
      (idMapGet (zipNewIds (g.nodes.map toSavedNode) startId)
        c.sourceId).isSome = true ∧
      ∃ ls, skelFind (⟨g.name,
          mkLoadedNodes (g.nodes.map toSavedNode) startId, []⟩ :
            ShaderGraph).nodes
          ((idMapGet (zipNewIds (g.nodes.map toSavedNode) startId)
            c.sourceId).getD 0) = some ls ∧
        c.sourceOutputIndex < ls.2 := by
    intro c hc
    obtain ⟨n0, hn0, hn0id, hn0len⟩ := hsrc c hc
    have hidmem : c.sourceId ∈ g.nodes.map (fun n => n.id) :=
      hn0id ▸ List.mem_map_of_mem (fun n => n.id) hn0
    have hm := hmget c.sourceId hidmem
    obtain ⟨n, hn, hnid, hskel⟩ := hnodeAt c.sourceId hidmem
    have hnn0 : n = n0 := nodupId_unique hnd hn hn0 (by rw [hnid, hn0id])
    subst hnn0
    refine ⟨by rw [hm]; rfl,
      ((mkNodeOfKind n.kind 0).inputPins.length,
       (mkNodeOfKind n.kind 0).outputPins.length), ?_, ?_⟩
    · rw [hm]
      simp only [Option.getD_some]
      exact hskel
    · have hlen := shaped_outLen (hshape n hn) 0
      show c.sourceOutputIndex < (mkNodeOfKind n.kind 0).outputPins.length
      omega
  have hs2 : ∀ c ∈ g.connections,
      (idMapGet (zipNewIds (g.nodes.map toSavedNode) startId)
        c.targetId).isSome = true ∧
      ∃ lt, skelFind (⟨g.name,
          mkLoadedNodes (g.nodes.map toSavedNode) startId, []⟩ :
            ShaderGraph).nodes
          ((idMapGet (zipNewIds (g.nodes.map toSavedNode) startId)
            c.targetId).getD 0) = some lt ∧
        c.targetInputIndex < lt.1 := by
    intro c hc
    obtain ⟨n0, hn0, hn0id, hn0len⟩ := htgt c hc
    have hidmem : c.targetId ∈ g.nodes.map (fun n => n.id) :=
      hn0id ▸ List.mem_map_of_mem (fun n => n.id) hn0
    have hm := hmget c.targetId hidmem
    obtain ⟨n, hn, hnid, hskel⟩ := hnodeAt c.targetId hidmem
    have hnn0 : n = n0 := nodupId_unique hnd hn hn0 (by rw [hnid, hn0id])
    subst hnn0
    refine ⟨by rw [hm]; rfl,
      ((mkNodeOfKind n.kind 0).inputPins.length,
       (mkNodeOfKind n.kind 0).outputPins.length), ?_, ?_⟩
    · rw [hm]
      simp only [Option.getD_some]
      exact hskel
    · have hlen := shaped_inLen (hshape n hn) 0
      show c.targetInputIndex < (mkNodeOfKind n.kind 0).inputPins.length
      omega
  have hrelpw : (g.connections.map
      (relabelConn (zipNewIds (g.nodes.map toSavedNode)
        startId))).Pairwise (fun c c' =>
      ¬(c.targetId = c'.targetId ∧
        c.targetInputIndex = c'.targetInputIndex)) := by
    rw [List.pairwise_map]
    refine huniq.imp_of_mem ?_
    intro a b ha hb hR hcontra
    obtain ⟨na, hna, hnaid, -⟩ := htgt a ha
    obtain ⟨nb, hnb, hnbid, -⟩ := htgt b hb
    have hamem : a.targetId ∈ g.nodes.map (fun n => n.id) :=
      hnaid ▸ List.mem_map_of_mem (fun n => n.id) hna
    have hbmem : b.targetId ∈ g.nodes.map (fun n => n.id) :=
      hnbid ▸ List.mem_map_of_mem (fun n => n.id) hnb
    have hma := hmget a.targetId hamem
    have hmb := hmget b.targetId hbmem
    have h1 : (relabelConn (zipNewIds (g.nodes.map toSavedNode) startId)
        a).targetId
        = startId + (g.nodes.map (fun n => n.id)).indexOf a.targetId := by
      unfold relabelConn
      rw [hma]
      rfl
    have h2 : (relabelConn (zipNewIds (g.nodes.map toSavedNode) startId)
        b).targetId
        = startId + (g.nodes.map (fun n => n.id)).indexOf b.targetId := by
      unfold relabelConn
      rw [hmb]
      rfl
    have heq : startId + (g.nodes.map (fun n => n.id)).indexOf a.targetId
        = startId + (g.nodes.map (fun n => n.id)).indexOf b.targetId := by
      rw [← h1, ← h2]
      exact hcontra.1
    have hidx : (g.nodes.map (fun n => n.id)).indexOf a.targetId
        = (g.nodes.map (fun n => n.id)).indexOf b.targetId := by
      omega
    have htideq : a.targetId = b.targetId :=
      (List.indexOf_inj hamem hbmem).mp hidx
    exact hR ⟨htideq, hcontra.2⟩
  have hcp := loadConnsPhase_spec g.connections
    (zipNewIds (g.nodes.map toSavedNode) startId)
    ⟨g.name, mkLoadedNodes (g.nodes.map toSavedNode) startId, []⟩
    hs1 hs2 hrelpw
  have hdescr : (loadDoc (saveDoc g) startId).nodes.map nodeDescr
      = expectedDescrs g.nodes startId := by
    rw [hld, loadConnsPhase_nodes_descr]
    exact mkLoadedNodes_descr g.nodes startId hshape
  have hlen1 : (loadDoc (saveDoc g) startId).nodes.length
      = g.nodes.length := by
    have h := congrArg List.length hdescr
    rw [List.length_map, expectedDescrs_length] at h
    exact h
  have hconn : (loadDoc (saveDoc g) startId).connections
      = g.connections.map (fun c =>
        ⟨relabelId g startId c.sourceId, c.sourceOutputIndex,
         relabelId g startId c.targetId, c.targetInputIndex⟩) := by
    rw [hld, hcp]
    show g.connections.map
      (relabelConn (zipNewIds (g.nodes.map toSavedNode) startId)) = _
    refine List.map_congr_left ?_
    intro c hc
    obtain ⟨ns, hns, hnsid, -⟩ := hsrc c hc
    obtain ⟨nt, hnt, hntid, -⟩ := htgt c hc
    have hsmem : c.sourceId ∈ g.nodes.map (fun n => n.id) :=
      hnsid ▸ List.mem_map_of_mem (fun n => n.id) hns
    have htmem : c.targetId ∈ g.nodes.map (fun n => n.id) :=
      hntid ▸ List.mem_map_of_mem (fun n => n.id) hnt
    unfold relabelConn relabelId
    rw [hmget c.sourceId hsmem, hmget c.targetId htmem]
    rfl
  have hlen2 : (loadDoc (saveDoc g) startId).connections.length
      = g.connections.length := by
    rw [hconn, List.length_map]
  exact ⟨hlen1, hlen2, hdescr, hconn⟩

/-- Round-trip fixture: a Time input node (id 5, moved and resized in the
editor) feeding the Color output node (id 9). -/
def rtGraph : ShaderGraph :=
  ⟨"RT",
   [{ mkNodeOfKind (.input .time "") 5 with
       position := (3, 4), size := (7, 8) },
    mkNodeOfKind (.output .color "") 9],
   [⟨5, 0, 9, 0⟩]⟩

theorem save_load_round_trip_witness :
    (loadDoc (saveDoc rtGraph) 100).nodes.length
      = rtGraph.nodes.length ∧
    (loadDoc (saveDoc rtGraph) 100).connections.length
      = rtGraph.connections.length ∧
    (loadDoc (saveDoc rtGraph) 100).nodes.map nodeDescr
      = expectedDescrs rtGraph.nodes 100 ∧
    (loadDoc (saveDoc rtGraph) 100).connections
      = rtGraph.connections.map (fun c =>
        ⟨relabelId rtGraph 100 c.sourceId, c.sourceOutputIndex,
         relabelId rtGraph 100 c.targetId, c.targetInputIndex⟩) :=
  save_load_round_trip rtGraph 100 (by decide) (by decide) (by decide)
    (by decide) (by decide)

end ElementalRenderer
